import Mathlib

/-!
Verification of the JSSP scheduling core (models.hpp / solver.cpp).

The C++ code stores `Operation`, `Job` and `Machine` objects behind
`std::shared_ptr`, so the same object can be referenced from several
containers (a job's operation list, a machine's scheduled list, and the
`ProblemInstance` copied into a `ScheduleResult`).  We embed this object
graph shallowly: a `Heap` maps natural-number references to the current
value of each object, and containers hold references.  Mutation of an
object through any alias is a pointwise update of the heap.

C++ `int` fields are modelled as `Int` (the claims under consideration
never reach the 32-bit overflow regime, where the C++ source would have
undefined behaviour).  The C++ `double` field `avgFlowTime` is modelled
as an exact rational `ℚ`; every property proved about it is about the
exact quotient.

`std::sort` guarantees only that its output is a permutation of its
input that is sorted with respect to the strict comparator; the order of
tied elements is unspecified.  The schedulers are therefore parameterised
by a `Sorter`, and theorems about them assume only the `std::sort`
contract (`SorterOK`).  `insertionSorter` is one concrete conforming sorter,
used to run the model on concrete inputs.
-/

namespace JSSP

/-- `Operation` from models.hpp: jobId, machineId, processingTime,
operationId fixed at construction; startTime/endTime initialised to 0. -/
structure Operation where
  jobId : Int
  machineId : Int
  processingTime : Int
  operationId : Int
  startTime : Int
  endTime : Int
deriving Repr, DecidableEq

/-- `Operation::getDuration`. -/
def Operation.getDuration (op : Operation) : Int := op.processingTime

/-- `Operation::setScheduled(start, end)`. -/
def Operation.setScheduled (op : Operation) (s e : Int) : Operation :=
  { op with startTime := s, endTime := e }

/-- `Operation::isScheduled`: true iff `endTime > startTime`. -/
def Operation.isScheduled (op : Operation) : Bool := op.endTime > op.startTime

/-- `Job` from models.hpp; `operations` holds references to shared
`Operation` objects. -/
structure Job where
  jobId : Int
  operations : List Nat
deriving Repr, DecidableEq

/-- `Machine` from models.hpp; `scheduledOperations` holds references to
shared `Operation` objects. -/
structure Machine where
  machineId : Int
  scheduledOperations : List Nat
  availableTime : Int
deriving Repr, DecidableEq

/-- The store of shared objects: each `shared_ptr<Operation>`,
`shared_ptr<Job>` and `shared_ptr<Machine>` target is addressed by a
natural number. -/
structure Heap where
  ops : Nat → Operation
  jobs : Nat → Job
  machines : Nat → Machine

/-- Write the operation object at reference `r`. -/
def Heap.setOp (h : Heap) (r : Nat) (op : Operation) : Heap :=
  { h with ops := fun s => if s = r then op else h.ops s }

/-- Write the machine object at reference `m`. -/
def Heap.setMachine (h : Heap) (m : Nat) (mach : Machine) : Heap :=
  { h with machines := fun s => if s = m then mach else h.machines s }

/-- `Machine::scheduleOperation(op, startTime)`: if `op` is non-null, set
the operation's start/end, append it to the machine's list, and advance
`availableTime`.  A null operation is a silent no-op. -/
def Machine.scheduleOperation (h : Heap) (mref : Nat) (opr : Option Nat)
    (startTime : Int) : Heap :=
  match opr with
  | none => h
  | some r =>
    let op := h.ops r
    let h1 := h.setOp r (op.setScheduled startTime (startTime + op.getDuration))
    let m := h1.machines mref
    h1.setMachine mref
      { m with scheduledOperations := m.scheduledOperations ++ [r],
               availableTime := startTime + (h1.ops r).getDuration }

/-- `Machine::reset`: clear the scheduled list and zero `availableTime`. -/
def Machine.reset (h : Heap) (mref : Nat) : Heap :=
  let m := h.machines mref
  h.setMachine mref { m with scheduledOperations := [], availableTime := 0 }

/-- `ProblemInstance` from models.hpp: vectors of shared pointers to jobs
and machines, plus the declared counts. -/
structure ProblemInstance where
  jobs : List Nat
  machines : List Nat
  numJobs : Int
  numMachines : Int
deriving Repr, DecidableEq

/-- `ProblemInstance::getJob(jobId)`: the job at position `jobId`, or
null when out of range. -/
def ProblemInstance.getJob (p : ProblemInstance) (jobId : Int) : Option Nat :=
  if hlt : 0 ≤ jobId ∧ jobId.toNat < p.jobs.length then
    some (p.jobs.get ⟨jobId.toNat, hlt.2⟩)
  else none

/-- `ProblemInstance::getMachine(machineId)`: the machine at position
`machineId`, or null when out of range. -/
def ProblemInstance.getMachine (p : ProblemInstance) (machineId : Int) : Option Nat :=
  if hlt : 0 ≤ machineId ∧ machineId.toNat < p.machines.length then
    some (p.machines.get ⟨machineId.toNat, hlt.2⟩)
  else none

/-- `ScheduleResult` from models.hpp.  Copy-assigning `problem` copies the
`shared_ptr` vectors, so the result shares the underlying Job, Machine and
Operation objects with the source instance. -/
structure ScheduleResult where
  problem : ProblemInstance
  scheduledJobs : List Nat
  makespan : Int
  totalCompletionTime : Int
  avgFlowTime : ℚ
deriving Repr, DecidableEq

/-- The inner loop of `ScheduleResult::calculateMetrics`: the maximum
`endTime` among a job's scheduled operations, starting from 0. -/
def jobCompletionTime (h : Heap) (jref : Nat) : Int :=
  (h.jobs jref).operations.foldl
    (fun acc r => if (h.ops r).isScheduled then max acc (h.ops r).endTime else acc) 0

/-- `ScheduleResult::calculateMetrics`: recompute makespan,
totalCompletionTime and avgFlowTime from the current end times of the
scheduled operations reachable through `problem`.  The method reads the
heap and rewrites only the three metric fields. -/
def ScheduleResult.calculateMetrics (h : Heap) (res : ScheduleResult) : ScheduleResult :=
  let s := res.problem.jobs.foldl
    (fun acc jref =>
      let jc := jobCompletionTime h jref
      (acc.1 + jc, max acc.2 jc)) ((0 : Int), (0 : Int))
  { res with
    makespan := s.2,
    totalCompletionTime := s.1,
    avgFlowTime :=
      if res.problem.jobs.isEmpty then (0 : ℚ)
      else (s.1 : ℚ) / (res.problem.jobs.length : ℚ) }

/-- `enum class SchedulingAlgorithm`. -/
inductive SchedulingAlgorithm where
  | FIFO
  | SPT
  | LPT
deriving Repr, DecidableEq

/-- The reset prologue shared by all three schedulers: reset every
machine of the problem. -/
def resetMachines (p : ProblemInstance) (h : Heap) : Heap :=
  p.machines.foldl Machine.reset h

/-- The reset prologue shared by all three schedulers: zero the
start/end times of every operation of every job. -/
def resetOperations (p : ProblemInstance) (h : Heap) : Heap :=
  p.jobs.foldl
    (fun h1 jref =>
      ((h1.jobs jref).operations).foldl
        (fun h2 r => h2.setOp r { h2.ops r with startTime := 0, endTime := 0 }) h1)
    h

/-- The `allPrevOpsCompleted` scan in solver.cpp: no sibling with a
strictly smaller operationId is unscheduled. -/
def allPrevOpsCompleted (h : Heap) (sibs : List Nat) (opId : Int) : Bool :=
  sibs.all fun r' => !((h.ops r').operationId < opId && !(h.ops r').isScheduled)

/-- The `jobReadyTime` scan in solver.cpp: the maximum `endTime` among
siblings with a strictly smaller operationId, starting from 0. -/
def jobReadyTime (h : Heap) (sibs : List Nat) (opId : Int) : Int :=
  sibs.foldl
    (fun acc r' =>
      if (h.ops r').operationId < opId then max acc (h.ops r').endTime else acc) 0

/-- Processing of one operation in a `Solver::scheduleFIFO` round: if the
operation is unscheduled, its machine exists and all previous operations
of the (containing) job are completed, commit it at
`max(machine.availableTime, jobReadyTime)` and raise the round flag. -/
def fifoStep (p : ProblemInstance) (jref : Nat) (acc : Heap × Bool) (r : Nat) :
    Heap × Bool :=
  let h := acc.1
  let op := h.ops r
  if op.isScheduled then acc
  else
    match p.getMachine op.machineId with
    | none => acc
    | some mref =>
      let sibs := (h.jobs jref).operations
      if allPrevOpsCompleted h sibs op.operationId then
        let startTime :=
          max (h.machines mref).availableTime (jobReadyTime h sibs op.operationId)
        (Machine.scheduleOperation h mref (some r) startTime, true)
      else acc

/-- One round of `Solver::scheduleFIFO`: traverse every job's operations
in storage order, threading the heap and the round flag. -/
def fifoRound (p : ProblemInstance) (h : Heap) : Heap × Bool :=
  p.jobs.foldl
    (fun acc jref => ((acc.1.jobs jref).operations).foldl (fifoStep p jref) acc)
    (h, false)

/-- The round loop of solver.cpp: repeat rounds while the previous round
scheduled something, up to the 1000-round safety limit. -/
def schedLoop (round : Heap → Heap × Bool) : Nat → Heap → Heap
  | 0, h => h
  | fuel + 1, h =>
    let s := round h
    if s.2 then schedLoop round fuel s.1 else s.1

/-- `Solver::scheduleFIFO`: reset machines and operation times, then run
FIFO rounds. -/
def Solver.scheduleFIFO (p : ProblemInstance) (h : Heap) : Heap :=
  schedLoop (fifoRound p) 1000 (resetOperations p (resetMachines p h))

/-- The ready-set collection of `Solver::scheduleWithPriority`: every
unscheduled operation whose previous operations (in its containing job)
are all completed, in job-then-storage order. -/
def collectReady (p : ProblemInstance) (h : Heap) : List Nat :=
  p.jobs.foldl
    (fun acc jref =>
      ((h.jobs jref).operations).foldl
        (fun acc2 r =>
          let op := h.ops r
          if !op.isScheduled &&
              allPrevOpsCompleted h (h.jobs jref).operations op.operationId then
            acc2 ++ [r]
          else acc2)
        acc)
    []

/-- The commit of one ready operation in `Solver::scheduleWithPriority`:
note that the job-ready time is computed from `getJob(op.jobId)`, not
from the job whose list contained the operation. -/
def commitStep (p : ProblemInstance) (acc : Heap × Bool) (r : Nat) : Heap × Bool :=
  let h := acc.1
  let op := h.ops r
  if op.isScheduled then acc
  else
    match p.getMachine op.machineId with
    | none => acc
    | some mref =>
      let jobReady :=
        match p.getJob op.jobId with
        | none => 0
        | some jref => jobReadyTime h (h.jobs jref).operations op.operationId
      let startTime := max (h.machines mref).availableTime jobReady
      (Machine.scheduleOperation h mref (some r) startTime, true)

/-- A model of a `std::sort` call: given the comparator and the heap the
comparator reads through, rearrange a list of operation references. -/
def Sorter : Type :=
  (Operation → Operation → Bool) → Heap → List Nat → List Nat

/-- The `std::sort` contract: the output is a permutation of the input
and is sorted with respect to the strict comparator (no element is
strictly less than an element before it).  Tie order is unspecified. -/
def SorterOK (cmp : Operation → Operation → Bool) (sorter : Sorter) : Prop :=
  ∀ h l, List.Perm (sorter cmp h l) l ∧
    List.Pairwise (fun r s => cmp (h.ops s) (h.ops r) = false) (sorter cmp h l)

/-- Insert into a sorted list of references (auxiliary for the concrete
conforming sorter below). -/
def insertSorted (le : Nat → Nat → Bool) (x : Nat) : List Nat → List Nat
  | [] => [x]
  | y :: t => if le x y then x :: y :: t else y :: insertSorted le x t

/-- Insertion sort on reference lists; structurally recursive, so a
kernel-computable stand-in for `std::sort`. -/
def insertionSort (le : Nat → Nat → Bool) : List Nat → List Nat
  | [] => []
  | x :: t => insertSorted le x (insertionSort le t)

/-- A concrete conforming sorter (stable insertion sort), used to run
the model on concrete inputs. -/
def insertionSorter : Sorter := fun cmp h l =>
  insertionSort (fun r s => !(cmp (h.ops s) (h.ops r))) l

/-- One round of `Solver::scheduleWithPriority`: collect the ready set,
sort it, then commit the ready operations in sorted order. -/
def priorityRound (sorter : Sorter) (cmp : Operation → Operation → Bool)
    (p : ProblemInstance) (h : Heap) : Heap × Bool :=
  (sorter cmp h (collectReady p h)).foldl (commitStep p) (h, false)

/-- `Solver::scheduleWithPriority`: the round loop with the 1000-round
safety limit (the reset prologue lives in the per-algorithm entries). -/
def Solver.scheduleWithPriority (sorter : Sorter)
    (cmp : Operation → Operation → Bool) (p : ProblemInstance) (h : Heap) : Heap :=
  schedLoop (priorityRound sorter cmp p) 1000 h

/-- The SPT comparator from `Solver::scheduleSPT`. -/
def cmpSPT (a b : Operation) : Bool := a.processingTime < b.processingTime

/-- The LPT comparator from `Solver::scheduleLPT`. -/
def cmpLPT (a b : Operation) : Bool := a.processingTime > b.processingTime

/-- `Solver::scheduleSPT`: reset, then priority scheduling by ascending
processing time. -/
def Solver.scheduleSPT (sorter : Sorter) (p : ProblemInstance) (h : Heap) : Heap :=
  Solver.scheduleWithPriority sorter cmpSPT p (resetOperations p (resetMachines p h))

/-- `Solver::scheduleLPT`: reset, then priority scheduling by descending
processing time. -/
def Solver.scheduleLPT (sorter : Sorter) (p : ProblemInstance) (h : Heap) : Heap :=
  Solver.scheduleWithPriority sorter cmpLPT p (resetOperations p (resetMachines p h))

/-- The algorithm dispatch in `Solver::solve`. -/
def runAlgorithm (sorter : Sorter) (algorithm : SchedulingAlgorithm)
    (p : ProblemInstance) (h : Heap) : Heap :=
  match algorithm with
  | .FIFO => Solver.scheduleFIFO p h
  | .SPT => Solver.scheduleSPT sorter p h
  | .LPT => Solver.scheduleLPT sorter p h

/-- `Solver::solve`: throw on a null problem; otherwise schedule in
place, copy-assign the problem into a fresh result (sharing the
underlying objects), compute metrics, and return the result. -/
def Solver.solve (sorter : Sorter) (algorithm : SchedulingAlgorithm)
    (problem : Option ProblemInstance) (h : Heap) :
    Except String ScheduleResult × Heap :=
  match problem with
  | none => (Except.error "Problem instance is null", h)
  | some p =>
    let h1 := runAlgorithm sorter algorithm p h
    let res0 : ScheduleResult :=
      { problem := p, scheduledJobs := [], makespan := 0,
        totalCompletionTime := 0, avgFlowTime := 0 }
    (Except.ok (ScheduleResult.calculateMetrics h1 res0), h1)

end JSSP

namespace JSSP

/-! ### Component lemmas for the single mutation primitive -/

theorem schedOp_ops (h : Heap) (mref r : Nat) (st : Int) (x : Nat) :
    (Machine.scheduleOperation h mref (some r) st).ops x =
      if x = r then (h.ops r).setScheduled st (st + (h.ops r).processingTime)
      else h.ops x := rfl

theorem schedOp_jobs (h : Heap) (mref r : Nat) (st : Int) :
    (Machine.scheduleOperation h mref (some r) st).jobs = h.jobs := rfl

theorem schedOp_machines (h : Heap) (mref r : Nat) (st : Int) (m : Nat) :
    (Machine.scheduleOperation h mref (some r) st).machines m =
      if m = mref then
        { h.machines mref with
          scheduledOperations := (h.machines mref).scheduledOperations ++ [r],
          availableTime := st + (h.ops r).processingTime }
      else h.machines m := by
  simp [Machine.scheduleOperation, Heap.setOp, Heap.setMachine,
    Operation.getDuration, Operation.setScheduled]

theorem setScheduled_fields (op : Operation) (s e : Int) :
    (op.setScheduled s e).jobId = op.jobId ∧
    (op.setScheduled s e).machineId = op.machineId ∧
    (op.setScheduled s e).processingTime = op.processingTime ∧
    (op.setScheduled s e).operationId = op.operationId ∧
    (op.setScheduled s e).startTime = s ∧
    (op.setScheduled s e).endTime = e := by
  simp [Operation.setScheduled]

/-! ### The evolution preorder

During a scheduling pass, the job arena is never written, the identity
fields of every operation are never written, and an operation that is
scheduled is never written again (every commit is guarded by
`!isScheduled`). -/

/-- `Evolves h h'`: `h'` is reachable from `h` by scheduling commits. -/
def Evolves (h h' : Heap) : Prop :=
  h'.jobs = h.jobs ∧
  (∀ r, (h'.ops r).jobId = (h.ops r).jobId ∧
        (h'.ops r).machineId = (h.ops r).machineId ∧
        (h'.ops r).processingTime = (h.ops r).processingTime ∧
        (h'.ops r).operationId = (h.ops r).operationId) ∧
  (∀ r, (h.ops r).isScheduled = true → h'.ops r = h.ops r)

theorem Evolves.refl (h : Heap) : Evolves h h :=
  ⟨rfl, fun _ => ⟨rfl, rfl, rfl, rfl⟩, fun _ _ => rfl⟩

theorem Evolves.trans {h1 h2 h3 : Heap} (a : Evolves h1 h2) (b : Evolves h2 h3) :
    Evolves h1 h3 := by
  obtain ⟨aj, af, as⟩ := a
  obtain ⟨bj, bf, bs⟩ := b
  refine ⟨bj.trans aj, ?_, ?_⟩
  · intro r
    obtain ⟨a1, a2, a3, a4⟩ := af r
    obtain ⟨b1, b2, b3, b4⟩ := bf r
    exact ⟨b1.trans a1, b2.trans a2, b3.trans a3, b4.trans a4⟩
  · intro r hr
    have h12 := as r hr
    have : (h2.ops r).isScheduled = true := by rw [h12]; exact hr
    rw [bs r this, h12]

theorem Evolves.sched_mono {h h' : Heap} (e : Evolves h h') (r : Nat)
    (hr : (h.ops r).isScheduled = true) : (h'.ops r).isScheduled = true := by
  rw [e.2.2 r hr]; exact hr

/-- A commit of an unscheduled operation is an evolution step. -/
theorem evolves_schedOp (h : Heap) (mref r : Nat) (st : Int)
    (hr : (h.ops r).isScheduled = false) :
    Evolves h (Machine.scheduleOperation h mref (some r) st) := by
  refine ⟨schedOp_jobs h mref r st, ?_, ?_⟩
  · intro x
    rw [schedOp_ops]
    by_cases hx : x = r
    · subst hx; simp [Operation.setScheduled]
    · simp [hx]
  · intro x hx
    rw [schedOp_ops]
    have : x ≠ r := by rintro rfl; rw [hx] at hr; cases hr
    simp [this]

/-! ### Generic fold helpers -/

theorem foldl_preserve {α β : Type} (f : α → β → α) (P : α → Prop) :
    ∀ (l : List β) (a : α), (∀ x b, b ∈ l → P x → P (f x b)) → P a →
      P (l.foldl f a)
  | [], a, _, ha => ha
  | b :: t, a, hstep, ha =>
    foldl_preserve f P t (f a b)
      (fun x c hc hx => hstep x c (List.mem_cons_of_mem b hc) hx)
      (hstep a b (List.mem_cons_self b t) ha)

theorem foldl_mem_achieves {α β : Type} (f : α → β → α) (P Q : α → Prop) (x : β) :
    ∀ (l : List β) (a : α),
      (∀ y b, b ∈ l → P y → P (f y b)) →
      (∀ y b, b ∈ l → P y → Q y → Q (f y b)) →
      (∀ y, P y → Q (f y x)) →
      x ∈ l → P a → Q (l.foldl f a)
  | [], _, _, _, _, hx, _ => absurd hx (List.not_mem_nil x)
  | b :: t, a, hstep, hmono, hcreate, hx, ha => by
    rcases List.mem_cons.1 hx with hxb | hxt
    · subst hxb
      have hP : P (f a x) := hstep a x (List.mem_cons_self x t) ha
      have hQ : Q (f a x) := hcreate a ha
      have := foldl_preserve f (fun y => P y ∧ Q y) t (f a x)
        (fun y c hc hy => ⟨hstep y c (List.mem_cons_of_mem x hc) hy.1,
                           hmono y c (List.mem_cons_of_mem x hc) hy.1 hy.2⟩)
        ⟨hP, hQ⟩
      exact this.2
    · exact foldl_mem_achieves f P Q x t (f a b)
        (fun y c hc hy => hstep y c (List.mem_cons_of_mem b hc) hy)
        (fun y c hc hy => hmono y c (List.mem_cons_of_mem b hc) hy)
        hcreate hxt (hstep a b (List.mem_cons_self b t) ha)

end JSSP

namespace JSSP

/-! ### Pointwise characterisation of the reset prologue -/

theorem setOp_ops (h : Heap) (a : Nat) (op : Operation) (r : Nat) :
    (h.setOp a op).ops r = if r = a then op else h.ops r := rfl

theorem reset_value (h : Heap) (a mref : Nat) :
    (Machine.reset h a).machines mref =
      if mref = a then
        { h.machines a with scheduledOperations := [], availableTime := 0 }
      else h.machines mref := rfl

theorem resetMachines_fold_ops : ∀ (l : List Nat) (h : Heap),
    (l.foldl Machine.reset h).ops = h.ops
  | [], _ => rfl
  | a :: t, h => (resetMachines_fold_ops t (Machine.reset h a)).trans rfl

theorem resetMachines_fold_jobs : ∀ (l : List Nat) (h : Heap),
    (l.foldl Machine.reset h).jobs = h.jobs
  | [], _ => rfl
  | a :: t, h => (resetMachines_fold_jobs t (Machine.reset h a)).trans rfl

theorem resetMachines_fold_machines : ∀ (l : List Nat) (h : Heap) (mref : Nat),
    (l.foldl Machine.reset h).machines mref =
      if mref ∈ l then
        { h.machines mref with scheduledOperations := [], availableTime := 0 }
      else h.machines mref
  | [], h, mref => by simp
  | a :: t, h, mref => by
    have ih := resetMachines_fold_machines t (Machine.reset h a) mref
    rw [List.foldl_cons, ih, reset_value]
    by_cases hma : mref = a
    · subst hma
      by_cases hmt : mref ∈ t <;> simp [hmt, List.mem_cons]
    · by_cases hmt : mref ∈ t <;> simp [hmt, hma, List.mem_cons]

theorem zeroOps_fold_jobs : ∀ (l : List Nat) (h : Heap),
    (l.foldl (fun h2 r => h2.setOp r { h2.ops r with startTime := 0, endTime := 0 }) h).jobs
      = h.jobs
  | [], _ => rfl
  | a :: t, h => (zeroOps_fold_jobs t _).trans rfl

theorem zeroOps_fold_machines : ∀ (l : List Nat) (h : Heap),
    (l.foldl (fun h2 r => h2.setOp r { h2.ops r with startTime := 0, endTime := 0 }) h).machines
      = h.machines
  | [], _ => rfl
  | a :: t, h => (zeroOps_fold_machines t _).trans rfl

theorem zeroOps_fold_ops : ∀ (l : List Nat) (h : Heap) (r : Nat),
    (l.foldl (fun h2 r' => h2.setOp r' { h2.ops r' with startTime := 0, endTime := 0 }) h).ops r
      = if r ∈ l then { h.ops r with startTime := 0, endTime := 0 } else h.ops r
  | [], h, r => by simp
  | a :: t, h, r => by
    have ih := zeroOps_fold_ops t (h.setOp a { h.ops a with startTime := 0, endTime := 0 }) r
    rw [List.foldl_cons, ih, setOp_ops]
    by_cases hra : r = a
    · subst hra
      by_cases hrt : r ∈ t <;> simp [hrt, List.mem_cons]
    · by_cases hrt : r ∈ t <;> simp [hrt, hra, List.mem_cons]

theorem resetOps_fold_jobs : ∀ (l : List Nat) (h : Heap),
    (l.foldl (fun h1 jref => ((h1.jobs jref).operations).foldl
        (fun h2 r => h2.setOp r { h2.ops r with startTime := 0, endTime := 0 }) h1) h).jobs
      = h.jobs
  | [], _ => rfl
  | a :: t, h => by
    rw [List.foldl_cons, resetOps_fold_jobs t _, zeroOps_fold_jobs]

theorem resetOps_fold_machines : ∀ (l : List Nat) (h : Heap),
    (l.foldl (fun h1 jref => ((h1.jobs jref).operations).foldl
        (fun h2 r => h2.setOp r { h2.ops r with startTime := 0, endTime := 0 }) h1) h).machines
      = h.machines
  | [], _ => rfl
  | a :: t, h => by
    rw [List.foldl_cons, resetOps_fold_machines t _, zeroOps_fold_machines]

theorem resetOps_fold_ops : ∀ (l : List Nat) (h : Heap) (r : Nat),
    (l.foldl (fun h1 jref => ((h1.jobs jref).operations).foldl
        (fun h2 r' => h2.setOp r' { h2.ops r' with startTime := 0, endTime := 0 }) h1) h).ops r
      = if ∃ jref ∈ l, r ∈ (h.jobs jref).operations then
          { h.ops r with startTime := 0, endTime := 0 }
        else h.ops r
  | [], h, r => by simp
  | a :: t, h, r => by
    rw [List.foldl_cons]
    have ih := resetOps_fold_ops t
      (((h.jobs a).operations).foldl
        (fun h2 r' => h2.setOp r' { h2.ops r' with startTime := 0, endTime := 0 }) h) r
    rw [ih, zeroOps_fold_jobs, zeroOps_fold_ops]
    by_cases hra : r ∈ (h.jobs a).operations
    · by_cases hrt : ∃ jref ∈ t, r ∈ (h.jobs jref).operations <;>
        simp [hra, hrt, List.mem_cons]
    · by_cases hrt : ∃ jref ∈ t, r ∈ (h.jobs jref).operations <;>
        simp [hra, hrt, List.mem_cons]

theorem resetOperations_jobs (p : ProblemInstance) (h : Heap) :
    (resetOperations p h).jobs = h.jobs := resetOps_fold_jobs p.jobs h

theorem resetOperations_machines (p : ProblemInstance) (h : Heap) :
    (resetOperations p h).machines = h.machines := resetOps_fold_machines p.jobs h

theorem resetOperations_ops (p : ProblemInstance) (h : Heap) (r : Nat) :
    (resetOperations p h).ops r =
      if ∃ jref ∈ p.jobs, r ∈ (h.jobs jref).operations then
        { h.ops r with startTime := 0, endTime := 0 }
      else h.ops r := resetOps_fold_ops p.jobs h r

theorem resetMachines_ops (p : ProblemInstance) (h : Heap) :
    (resetMachines p h).ops = h.ops := resetMachines_fold_ops p.machines h

theorem resetMachines_jobs (p : ProblemInstance) (h : Heap) :
    (resetMachines p h).jobs = h.jobs := resetMachines_fold_jobs p.machines h

/-! ### The readiness and job-ready-time scans -/

theorem allPrevOpsCompleted_iff (h : Heap) (sibs : List Nat) (opId : Int) :
    allPrevOpsCompleted h sibs opId = true ↔
      ∀ r' ∈ sibs, (h.ops r').operationId < opId → (h.ops r').isScheduled = true := by
  rw [allPrevOpsCompleted, List.all_eq_true]
  constructor
  · intro H r' hr' hlt
    have := H r' hr'
    simpa [hlt] using this
  · intro H r' hr'
    by_cases hlt : (h.ops r').operationId < opId
    · simp [hlt, H r' hr' hlt]
    · simp [hlt]

theorem jobReady_fold_le (h : Heap) (opId : Int) :
    ∀ (l : List Nat) (acc : Int),
      acc ≤ l.foldl
        (fun a r' => if (h.ops r').operationId < opId then max a (h.ops r').endTime else a)
        acc
  | [], acc => le_refl acc
  | a :: t, acc => by
    rw [List.foldl_cons]
    refine le_trans ?_ (jobReady_fold_le h opId t _)
    by_cases hlt : (h.ops a).operationId < opId <;> simp [hlt, le_max_left]

theorem endTime_le_jobReady_fold (h : Heap) (opId : Int) :
    ∀ (l : List Nat) (acc : Int) (r' : Nat), r' ∈ l →
      (h.ops r').operationId < opId →
      (h.ops r').endTime ≤ l.foldl
        (fun a x => if (h.ops x).operationId < opId then max a (h.ops x).endTime else a)
        acc
  | [], _, _, hr, _ => absurd hr (List.not_mem_nil _)
  | a :: t, acc, r', hr, hlt => by
    rw [List.foldl_cons]
    rcases List.mem_cons.1 hr with hra | hrt
    · subst hra
      refine le_trans ?_ (jobReady_fold_le h opId t _)
      simp [hlt, le_max_right]
    · exact endTime_le_jobReady_fold h opId t _ r' hrt hlt

theorem endTime_le_jobReadyTime (h : Heap) (sibs : List Nat) (opId : Int)
    (r' : Nat) (hr : r' ∈ sibs) (hlt : (h.ops r').operationId < opId) :
    (h.ops r').endTime ≤ jobReadyTime h sibs opId :=
  endTime_le_jobReady_fold h opId sibs 0 r' hr hlt

/-! ### Characterisation of the ready set -/

theorem collect_inner_eq (h : Heap) (sibs : List Nat) :
    ∀ (l acc : List Nat),
      (l.foldl
        (fun acc2 r =>
          let op := h.ops r
          if !op.isScheduled && allPrevOpsCompleted h sibs op.operationId then
            acc2 ++ [r]
          else acc2)
        acc)
      = acc ++ l.filter
          (fun r => !(h.ops r).isScheduled &&
            allPrevOpsCompleted h sibs (h.ops r).operationId)
  | [], acc => by simp
  | a :: t, acc => by
    rw [List.foldl_cons, collect_inner_eq h sibs t, List.filter_cons]
    by_cases hc : (!(h.ops a).isScheduled &&
        allPrevOpsCompleted h sibs (h.ops a).operationId) = true
    · simp [hc]
    · simp [hc]

theorem collectReady_fold_eq (h : Heap) :
    ∀ (l acc : List Nat),
      (l.foldl
        (fun acc1 jref =>
          ((h.jobs jref).operations).foldl
            (fun acc2 r =>
              let op := h.ops r
              if !op.isScheduled &&
                  allPrevOpsCompleted h (h.jobs jref).operations op.operationId then
                acc2 ++ [r]
              else acc2)
            acc1)
        acc)
      = acc ++ (l.map (fun jref =>
          ((h.jobs jref).operations).filter
            (fun r => !(h.ops r).isScheduled &&
              allPrevOpsCompleted h ((h.jobs jref).operations) (h.ops r).operationId))).flatten
  | [], acc => by simp
  | a :: t, acc => by
    rw [List.foldl_cons, collectReady_fold_eq h t, collect_inner_eq h]
    simp [List.append_assoc]

theorem collectReady_eq (p : ProblemInstance) (h : Heap) :
    collectReady p h
      = (p.jobs.map (fun jref =>
          ((h.jobs jref).operations).filter
            (fun r => !(h.ops r).isScheduled &&
              allPrevOpsCompleted h ((h.jobs jref).operations) (h.ops r).operationId))).flatten := by
  rw [collectReady, collectReady_fold_eq h p.jobs []]
  simp

theorem mem_collectReady {p : ProblemInstance} {h : Heap} {r : Nat} :
    r ∈ collectReady p h ↔
      ∃ jref, jref ∈ p.jobs ∧ r ∈ (h.jobs jref).operations ∧
        (h.ops r).isScheduled = false ∧
        allPrevOpsCompleted h ((h.jobs jref).operations) (h.ops r).operationId = true := by
  rw [collectReady_eq]
  constructor
  · intro hmem
    obtain ⟨l, hl, hrl⟩ := List.mem_flatten.1 hmem
    obtain ⟨jref, hj, rfl⟩ := List.mem_map.1 hl
    have h2 := List.mem_filter.1 hrl
    have h3 := h2.2
    simp only [Bool.and_eq_true, Bool.not_eq_true'] at h3
    exact ⟨jref, hj, h2.1, h3.1, h3.2⟩
  · rintro ⟨jref, hj, hr, hsched, hprev⟩
    refine List.mem_flatten.2 ⟨_, List.mem_map.2 ⟨jref, hj, rfl⟩, ?_⟩
    refine List.mem_filter.2 ⟨hr, ?_⟩
    simp [hsched, hprev]

end JSSP

namespace JSSP

/-! ### Unfolding `calculateMetrics` -/

theorem metrics_fold_split (h : Heap) : ∀ (l : List Nat) (a b : Int),
    (l.foldl (fun acc jref =>
        let jc := jobCompletionTime h jref
        (acc.1 + jc, max acc.2 jc)) (a, b))
    = (a + (l.map (jobCompletionTime h)).sum, (l.map (jobCompletionTime h)).foldl max b)
  | [], a, b => by simp
  | j :: t, a, b => by
    rw [List.foldl_cons, metrics_fold_split h t]
    simp [add_assoc]

theorem calcMetrics_total (h : Heap) (res : ScheduleResult) :
    (ScheduleResult.calculateMetrics h res).totalCompletionTime
      = (res.problem.jobs.map (jobCompletionTime h)).sum := by
  have h0 : (ScheduleResult.calculateMetrics h res).totalCompletionTime
      = (res.problem.jobs.foldl (fun acc jref =>
          let jc := jobCompletionTime h jref
          (acc.1 + jc, max acc.2 jc)) ((0 : Int), (0 : Int))).1 := rfl
  rw [h0, metrics_fold_split]
  simp

theorem calcMetrics_makespan (h : Heap) (res : ScheduleResult) :
    (ScheduleResult.calculateMetrics h res).makespan
      = (res.problem.jobs.map (jobCompletionTime h)).foldl max 0 := by
  have h0 : (ScheduleResult.calculateMetrics h res).makespan
      = (res.problem.jobs.foldl (fun acc jref =>
          let jc := jobCompletionTime h jref
          (acc.1 + jc, max acc.2 jc)) ((0 : Int), (0 : Int))).2 := rfl
  rw [h0, metrics_fold_split]

theorem calcMetrics_avg (h : Heap) (res : ScheduleResult) :
    (ScheduleResult.calculateMetrics h res).avgFlowTime
      = (if res.problem.jobs.isEmpty then (0 : ℚ)
         else (((res.problem.jobs.map (jobCompletionTime h)).sum : Int) : ℚ)
            / (res.problem.jobs.length : ℚ)) := by
  have h0 : (ScheduleResult.calculateMetrics h res).avgFlowTime
      = (if res.problem.jobs.isEmpty then (0 : ℚ)
         else (((res.problem.jobs.foldl (fun acc jref =>
             let jc := jobCompletionTime h jref
             (acc.1 + jc, max acc.2 jc)) ((0 : Int), (0 : Int))).1 : Int) : ℚ)
            / (res.problem.jobs.length : ℚ)) := rfl
  rw [h0, metrics_fold_split]
  simp

theorem cond_fold_filter_map (c : Nat → Bool) (f : Nat → Int) :
    ∀ (l : List Nat) (acc : Int),
      l.foldl (fun a r => if c r then max a (f r) else a) acc
        = ((l.filter c).map f).foldl max acc
  | [], _ => rfl
  | x :: t, acc => by
    rw [List.foldl_cons, List.filter_cons]
    by_cases hc : c x = true
    · simp only [hc, if_true]
      rw [cond_fold_filter_map c f t, List.map_cons, List.foldl_cons]
    · simp only [hc, if_false, Bool.false_eq_true]
      rw [cond_fold_filter_map c f t]

theorem jobCompletionTime_eq (h : Heap) (jref : Nat) :
    jobCompletionTime h jref
      = (((h.jobs jref).operations.filter (fun r => (h.ops r).isScheduled)).map
          (fun r => (h.ops r).endTime)).foldl max 0 :=
  cond_fold_filter_map _ _ _ 0

theorem foldl_max_max : ∀ (l : List Int) (a b : Int),
    l.foldl max (max a b) = max a (l.foldl max b)
  | [], _, _ => rfl
  | x :: t, a, b => by
    rw [List.foldl_cons, List.foldl_cons, max_assoc, foldl_max_max t a (max b x)]

theorem le_foldl_max : ∀ (l : List Int) (a : Int), a ≤ l.foldl max a
  | [], a => le_refl a
  | x :: t, a => le_trans (le_max_left a x) (le_foldl_max t _)

theorem foldl_max_flatten_gen : ∀ (L : List (List Int)) (A : Int), 0 ≤ A →
    (L.map (fun l => l.foldl max 0)).foldl max A = L.flatten.foldl max A
  | [], _, _ => rfl
  | l :: T, A, hA => by
    rw [List.map_cons, List.foldl_cons, List.flatten_cons, List.foldl_append]
    have h1 : l.foldl max A = max A (l.foldl max 0) := by
      have h2 := foldl_max_max l A 0
      rwa [max_eq_left hA] at h2
    rw [← h1]
    exact foldl_max_flatten_gen T _ (le_trans hA (le_foldl_max l A))

/-- All end times of scheduled operations reachable through the problem's
jobs, in job-then-storage order. -/
def schedEndTimes (p : ProblemInstance) (h : Heap) : List Int :=
  (p.jobs.map (fun jref =>
    ((h.jobs jref).operations.filter (fun r => (h.ops r).isScheduled)).map
      (fun r => (h.ops r).endTime))).flatten

theorem makespan_eq_schedEnds (h : Heap) (res : ScheduleResult) :
    (ScheduleResult.calculateMetrics h res).makespan
      = (schedEndTimes res.problem h).foldl max 0 := by
  rw [calcMetrics_makespan, schedEndTimes]
  have hmapmap : res.problem.jobs.map (jobCompletionTime h)
      = (res.problem.jobs.map (fun jref =>
          ((h.jobs jref).operations.filter (fun r => (h.ops r).isScheduled)).map
            (fun r => (h.ops r).endTime))).map (fun l => l.foldl max 0) := by
    rw [List.map_map]
    exact List.map_congr_left (fun jref _ => jobCompletionTime_eq h jref)
  rw [hmapmap, foldl_max_flatten_gen _ 0 (le_refl 0)]

/-! ### Conforming sorters -/

theorem insertSorted_perm (le : Nat → Nat → Bool) (x : Nat) :
    ∀ l : List Nat, (insertSorted le x l).Perm (x :: l)
  | [] => List.Perm.refl [x]
  | y :: t => by
    rw [insertSorted]
    by_cases hxy : le x y = true
    · simp [hxy]
    · simp only [hxy, if_false, Bool.false_eq_true]
      exact ((insertSorted_perm le x t).cons y).trans (List.Perm.swap x y t)

theorem insertionSort_perm (le : Nat → Nat → Bool) :
    ∀ l : List Nat, (insertionSort le l).Perm l
  | [] => List.Perm.refl []
  | x :: t => by
    rw [insertionSort]
    exact (insertSorted_perm le x (insertionSort le t)).trans
      ((insertionSort_perm le t).cons x)

theorem insertSorted_pairwise (le : Nat → Nat → Bool)
    (htrans : ∀ a b c, le a b = true → le b c = true → le a c = true)
    (htotal : ∀ a b, le a b = true ∨ le b a = true) (x : Nat) :
    ∀ l : List Nat, l.Pairwise (fun a b => le a b = true) →
      (insertSorted le x l).Pairwise (fun a b => le a b = true)
  | [], _ => by simp [insertSorted]
  | y :: t, hl => by
    rw [insertSorted]
    have hyt := List.pairwise_cons.1 hl
    by_cases hxy : le x y = true
    · simp only [hxy, if_true]
      refine List.pairwise_cons.2 ⟨?_, hl⟩
      intro z hz
      rcases List.mem_cons.1 hz with rfl | hzt
      · exact hxy
      · exact htrans x y z hxy (hyt.1 z hzt)
    · simp only [hxy, if_false, Bool.false_eq_true]
      have hyx : le y x = true := (htotal x y).resolve_left hxy
      refine List.pairwise_cons.2 ⟨?_, insertSorted_pairwise le htrans htotal x t hyt.2⟩
      intro z hz
      have hz2 : z ∈ x :: t := (insertSorted_perm le x t).mem_iff.1 hz
      rcases List.mem_cons.1 hz2 with rfl | hzt
      · exact hyx
      · exact hyt.1 z hzt

theorem insertionSort_pairwise (le : Nat → Nat → Bool)
    (htrans : ∀ a b c, le a b = true → le b c = true → le a c = true)
    (htotal : ∀ a b, le a b = true ∨ le b a = true) :
    ∀ l : List Nat, (insertionSort le l).Pairwise (fun a b => le a b = true)
  | [] => by simp [insertionSort]
  | x :: t => by
    rw [insertionSort]
    exact insertSorted_pairwise le htrans htotal x _
      (insertionSort_pairwise le htrans htotal t)

theorem insertionSort_ok_cmp_SPT (h : Heap) (l : List Nat) :
    (insertionSort (fun r s => !(cmpSPT (h.ops s) (h.ops r))) l).Perm l ∧
    List.Pairwise (fun r s => cmpSPT (h.ops s) (h.ops r) = false)
      (insertionSort (fun r s => !(cmpSPT (h.ops s) (h.ops r))) l) := by
  have htrans : ∀ a b c, (!(cmpSPT (h.ops b) (h.ops a))) = true →
      (!(cmpSPT (h.ops c) (h.ops b))) = true →
      (!(cmpSPT (h.ops c) (h.ops a))) = true := by
    intro a b c hab hbc
    simp only [cmpSPT, Bool.not_eq_true', decide_eq_false_iff_not, not_lt] at *
    omega
  have htotal : ∀ a b, (!(cmpSPT (h.ops b) (h.ops a))) = true ∨
      (!(cmpSPT (h.ops a) (h.ops b))) = true := by
    intro a b
    simp only [cmpSPT, Bool.not_eq_true', decide_eq_false_iff_not, not_lt]
    omega
  refine ⟨insertionSort_perm _ l, ?_⟩
  have hs := insertionSort_pairwise _ htrans htotal l
  exact hs.imp (fun hle => by simpa [Bool.not_eq_true'] using hle)

theorem insertionSort_ok_cmp_LPT (h : Heap) (l : List Nat) :
    (insertionSort (fun r s => !(cmpLPT (h.ops s) (h.ops r))) l).Perm l ∧
    List.Pairwise (fun r s => cmpLPT (h.ops s) (h.ops r) = false)
      (insertionSort (fun r s => !(cmpLPT (h.ops s) (h.ops r))) l) := by
  have htrans : ∀ a b c, (!(cmpLPT (h.ops b) (h.ops a))) = true →
      (!(cmpLPT (h.ops c) (h.ops b))) = true →
      (!(cmpLPT (h.ops c) (h.ops a))) = true := by
    intro a b c hab hbc
    simp only [cmpLPT, gt_iff_lt, Bool.not_eq_true', decide_eq_false_iff_not, not_lt] at *
    omega
  have htotal : ∀ a b, (!(cmpLPT (h.ops b) (h.ops a))) = true ∨
      (!(cmpLPT (h.ops a) (h.ops b))) = true := by
    intro a b
    simp only [cmpLPT, gt_iff_lt, Bool.not_eq_true', decide_eq_false_iff_not, not_lt]
    omega
  refine ⟨insertionSort_perm _ l, ?_⟩
  have hs := insertionSort_pairwise _ htrans htotal l
  exact hs.imp (fun hle => by simpa [Bool.not_eq_true'] using hle)

theorem insertionSorter_ok_SPT : SorterOK cmpSPT insertionSorter :=
  fun h l => insertionSort_ok_cmp_SPT h l

theorem insertionSorter_ok_LPT : SorterOK cmpLPT insertionSorter :=
  fun h l => insertionSort_ok_cmp_LPT h l

/-! ### Small list helpers -/

theorem perm_two_cases {l : List Nat} {a b : Nat} (hab : a ≠ b) (hp : l.Perm [a, b]) :
    l = [a, b] ∨ l = [b, a] := by
  have hlen : l.length = 2 := by simpa using hp.length_eq
  rcases l with _ | ⟨x, _ | ⟨y, _ | ⟨z, t⟩⟩⟩ <;> simp at hlen
  have hx : x ∈ ([a, b] : List Nat) := hp.subset (by simp)
  have hy : y ∈ ([a, b] : List Nat) := hp.subset (by simp)
  have hcnt := hp.count_eq a
  simp only [List.mem_cons, List.mem_singleton, List.not_mem_nil, or_false] at hx hy
  rcases hx with rfl | rfl <;> rcases hy with rfl | rfl
  · simp [List.count_cons, hab] at hcnt
  · exact Or.inl rfl
  · exact Or.inr rfl
  · simp [List.count_cons, hab, Ne.symm hab] at hcnt

theorem schedLoop_succ (round : Heap → Heap × Bool) (n : Nat) (h : Heap) :
    schedLoop round (n + 1) h =
      if (round h).2 then schedLoop round n (round h).1 else (round h).1 := rfl

end JSSP

namespace JSSP

/-! ### Concrete instances used by witnesses and counterexamples -/

/-- A filler operation object for unused heap references. -/
def defOp : Operation := ⟨0, 0, 0, 0, 0, 0⟩

/-- A filler job object for unused heap references. -/
def defJob : Job := ⟨0, []⟩

/-- A filler machine object for unused heap references. -/
def defMach : Machine := ⟨0, [], 0⟩

/-- The spec's SPT-vs-LPT scenario: two single-operation jobs on one
machine; job 0's operation (ref 0) has duration 10, job 1's (ref 1) has
duration 2. -/
def h8 : Heap :=
  ⟨fun r => if r = 0 then ⟨0, 0, 10, 0, 0, 0⟩ else if r = 1 then ⟨1, 0, 2, 1, 0, 0⟩ else defOp,
   fun r => if r = 0 then ⟨0, [0]⟩ else if r = 1 then ⟨1, [1]⟩ else defJob,
   fun _ => defMach⟩

/-- The problem instance for the SPT-vs-LPT scenario. -/
def p8 : ProblemInstance := ⟨[0, 1], [0], 2, 1⟩

/-- A heap whose one operation was set to the times (-7, -5): it counts
as scheduled (end > start) but has a negative end time. -/
def hneg : Heap :=
  ⟨fun _ => ⟨0, 0, 2, 0, -7, -5⟩, fun _ => ⟨0, [0]⟩, fun _ => defMach⟩

/-- One job, no machines, for the negative-end-time states. -/
def pneg : ProblemInstance := ⟨[0], [], 1, 0⟩

/-- A schedule result over `pneg`. -/
def resneg : ScheduleResult := ⟨pneg, [], 0, 0, 0⟩

/-- C1 counterexample instance: job 0 stores operation ref 1 whose
`jobId` field is 1 (it names the other, empty job). -/
def h1c : Heap :=
  ⟨fun r => if r = 0 then ⟨0, 0, 5, 0, 0, 0⟩ else if r = 1 then ⟨1, 1, 1, 1, 0, 0⟩ else defOp,
   fun r => if r = 0 then ⟨0, [0, 1]⟩ else if r = 1 then ⟨1, []⟩ else defJob,
   fun r => if r = 0 then ⟨0, [], 0⟩ else if r = 1 then ⟨1, [], 0⟩ else defMach⟩

/-- The problem instance for the C1 counterexample. -/
def p1c : ProblemInstance := ⟨[0, 1], [0, 1], 2, 2⟩

/-! ### C5, C9, C3, C6, C7 -/

/-- C5: `Solver::solve` signals an error if and only if the problem is
null; the null case returns the descriptive error with the heap
untouched, and every non-null case returns an `ok` result, the heap
being exactly the one produced by the selected scheduling algorithm
(the 1000-round limit only stops the loop; it raises nothing). -/
theorem C5_solve_null_only_error :
    (∀ (sorter : Sorter) (alg : SchedulingAlgorithm) (h : Heap),
        Solver.solve sorter alg none h = (Except.error "Problem instance is null", h)) ∧
    (∀ (sorter : Sorter) (alg : SchedulingAlgorithm) (p : ProblemInstance) (h : Heap),
        ∃ res : ScheduleResult,
          Solver.solve sorter alg (some p) h = (Except.ok res, runAlgorithm sorter alg p h)) :=
  ⟨fun _ _ _ => rfl, fun _ _ _ _ => ⟨_, rfl⟩⟩

/-- C9: `calculateMetrics` is idempotent — running it again on the
unchanged heap returns the identical result — and it leaves the problem
reference structure unchanged (in the embedding it does not return a
heap at all: it only reads it). -/
theorem C9_calculateMetrics_idempotent (h : Heap) (res : ScheduleResult) :
    ScheduleResult.calculateMetrics h (ScheduleResult.calculateMetrics h res)
      = ScheduleResult.calculateMetrics h res ∧
    (ScheduleResult.calculateMetrics h res).problem = res.problem :=
  ⟨rfl, rfl⟩

/-- C3 (amended): the `ScheduleResult` returned by `solve` holds a copy
of the `ProblemInstance` whose `shared_ptr` vectors are the very same
references as the input problem's, so the result shares the underlying
Job/Machine/Operation objects with the original instance rather than
snapshotting them. -/
theorem C3_result_shares_problem_refs (sorter : Sorter) (alg : SchedulingAlgorithm)
    (p : ProblemInstance) (h : Heap) :
    ∃ res h1, Solver.solve sorter alg (some p) h = (Except.ok res, h1) ∧
      res.problem = p :=
  ⟨_, _, rfl, rfl⟩

/-- C3 counterexample: solve `p8` with SPT (job 0's operation starts at
2); re-solving the same instance with LPT afterwards rewrites that
operation's start time to 0, and the new value is what one reads through
the previously returned result (its problem copy is `p8` itself, whose
job 0 still points at operation ref 0). -/
theorem C3_counterexample_rerun_mutates :
    (∃ res, (Solver.solve insertionSorter SchedulingAlgorithm.SPT (some p8) h8).1
        = Except.ok res ∧ res.problem = p8) ∧
    ((Solver.solve insertionSorter SchedulingAlgorithm.SPT (some p8) h8).2.ops 0).startTime = 2 ∧
    ((Solver.solve insertionSorter SchedulingAlgorithm.LPT (some p8)
        (Solver.solve insertionSorter SchedulingAlgorithm.SPT (some p8) h8).2).2.ops 0).startTime
      = 0 := by
  refine ⟨⟨_, rfl, rfl⟩, by decide, by decide⟩

/-- C6 (amended): after `calculateMetrics`, makespan equals the maximum
of 0 and the end times of all scheduled operations (each job's
completion time is clamped below at 0 by the accumulator); in
particular it is 0 when no operation is scheduled.  It equals the plain
maximum of the scheduled end times only when some scheduled end time is
nonnegative. -/
theorem C6_makespan_clamped (h : Heap) (res : ScheduleResult) :
    (ScheduleResult.calculateMetrics h res).makespan
      = (schedEndTimes res.problem h).foldl max 0 ∧
    (schedEndTimes res.problem h = [] →
      (ScheduleResult.calculateMetrics h res).makespan = 0) := by
  refine ⟨makespan_eq_schedEnds h res, fun hnil => ?_⟩
  rw [makespan_eq_schedEnds h res, hnil]
  rfl

/-- C6 counterexample: an operation scheduled at times (-7, -5) is
`isScheduled`, the list of scheduled end times is `[-5]` (so the claimed
makespan is -5), but `calculateMetrics` computes makespan 0. -/
theorem C6_counterexample_negative_end :
    schedEndTimes pneg hneg = [-5] ∧
    (ScheduleResult.calculateMetrics hneg resneg).makespan = 0 ∧
    ((0 : Int) ≠ -5) := by
  refine ⟨by decide, by decide, by decide⟩

/-- C7 (amended): after `calculateMetrics`, totalCompletionTime is the
sum over jobs of the maximum of 0 and the job's scheduled end times
(clamped below at 0, not the plain per-job maximum), and avgFlowTime is
totalCompletionTime divided by the number of jobs, exactly 0 when there
are no jobs.  The C++ `double` is modelled as an exact rational. -/
theorem C7_flow_metrics (h : Heap) (res : ScheduleResult) :
    (ScheduleResult.calculateMetrics h res).totalCompletionTime
      = (res.problem.jobs.map (fun jref =>
          (((h.jobs jref).operations.filter (fun r => (h.ops r).isScheduled)).map
            (fun r => (h.ops r).endTime)).foldl max 0)).sum ∧
    (ScheduleResult.calculateMetrics h res).avgFlowTime
      = (if res.problem.jobs.isEmpty then (0 : ℚ)
         else (((ScheduleResult.calculateMetrics h res).totalCompletionTime : Int) : ℚ)
            / (res.problem.jobs.length : ℚ)) := by
  constructor
  · rw [calcMetrics_total]
    exact congrArg List.sum (List.map_congr_left fun jref _ => jobCompletionTime_eq h jref)
  · rw [calcMetrics_avg, calcMetrics_total]

/-- C7 counterexample: with the single job whose only operation is
scheduled at times (-7, -5), the job's maximum scheduled end time is -5,
so the claimed totalCompletionTime is -5; `calculateMetrics` computes
0 instead (the per-job accumulator starts at 0). -/
theorem C7_counterexample_negative_end :
    ((hneg.jobs 0).operations.filter (fun r => (hneg.ops r).isScheduled)).map
        (fun r => (hneg.ops r).endTime) = [-5] ∧
    pneg.jobs = [0] ∧
    (ScheduleResult.calculateMetrics hneg resneg).totalCompletionTime = 0 ∧
    ((0 : Int) ≠ -5) := by
  refine ⟨by decide, by decide, by decide, by decide⟩

end JSSP

namespace JSSP

/-! ### C8: the SPT vs LPT scenario -/

theorem schedLoop_two_rounds (R : Heap → Heap × Bool) (h h1 : Heap) (n : Nat)
    (h1eq : R h = (h1, true)) (h2eq : R h1 = (h1, false)) :
    schedLoop R (n + 2) h = h1 := by
  have hstep1 : schedLoop R (n + 2) h = schedLoop R (n + 1) h1 := by
    rw [show n + 2 = (n + 1) + 1 from rfl, schedLoop_succ, h1eq]
    simp
  rw [hstep1, schedLoop_succ, h2eq]
  simp

/-- The heap after the reset prologue on the SPT-vs-LPT scenario. -/
def hr8 : Heap := resetOperations p8 (resetMachines p8 h8)

/-- The heap after the first SPT round on the scenario (commit order [1, 0]). -/
def e8spt : Heap := (List.foldl (commitStep p8) (hr8, false) [1, 0]).1

/-- The heap after the first LPT round on the scenario (commit order [0, 1]). -/
def e8lpt : Heap := (List.foldl (commitStep p8) (hr8, false) [0, 1]).1

/-- C8: on the two single-operation jobs sharing one machine (durations
10 and 2), every conforming `std::sort` behaviour yields: SPT schedules
job 1's operation at start 0 and job 0's at start 2; LPT schedules job
0's at start 0 and job 1's at start 10. -/
theorem C8_spt_lpt_scenario (sorter : Sorter)
    (hspt : SorterOK cmpSPT sorter) (hlpt : SorterOK cmpLPT sorter) :
    (((Solver.scheduleSPT sorter p8 h8).ops 1).startTime = 0 ∧
     ((Solver.scheduleSPT sorter p8 h8).ops 0).startTime = 2) ∧
    (((Solver.scheduleLPT sorter p8 h8).ops 0).startTime = 0 ∧
     ((Solver.scheduleLPT sorter p8 h8).ops 1).startTime = 10) := by
  have hready : collectReady p8 hr8 = [0, 1] := by decide
  constructor
  · -- SPT
    have hsorted : sorter cmpSPT hr8 (collectReady p8 hr8) = [1, 0] := by
      have hperm := (hspt hr8 (collectReady p8 hr8)).1
      have hpair := (hspt hr8 (collectReady p8 hr8)).2
      rw [hready] at hperm hpair ⊢
      rcases perm_two_cases (by decide) hperm with hcase | hcase
      · rw [hcase] at hpair
        have hc := (List.pairwise_cons.1 hpair).1 1 (by simp)
        exact absurd hc (by decide)
      · exact hcase
    have h1eq : priorityRound sorter cmpSPT p8 hr8 = (e8spt, true) := by
      show (sorter cmpSPT hr8 (collectReady p8 hr8)).foldl (commitStep p8) (hr8, false)
        = (e8spt, true)
      rw [hsorted]
      exact Prod.ext rfl (by decide)
    have h2eq : priorityRound sorter cmpSPT p8 e8spt = (e8spt, false) := by
      have hready2 : collectReady p8 e8spt = [] := by decide
      have hnil : sorter cmpSPT e8spt (collectReady p8 e8spt) = [] := by
        have hperm := (hspt e8spt (collectReady p8 e8spt)).1
        rw [hready2] at hperm
        exact hperm.eq_nil
      show (sorter cmpSPT e8spt (collectReady p8 e8spt)).foldl (commitStep p8) (e8spt, false)
        = (e8spt, false)
      rw [hnil]
      rfl
    have hrun : Solver.scheduleSPT sorter p8 h8 = e8spt := by
      show schedLoop (priorityRound sorter cmpSPT p8) 1000 hr8 = e8spt
      rw [show (1000 : Nat) = 998 + 2 from rfl]
      exact schedLoop_two_rounds _ hr8 e8spt 998 h1eq h2eq
    rw [hrun]
    exact ⟨by decide, by decide⟩
  · -- LPT
    have hsorted : sorter cmpLPT hr8 (collectReady p8 hr8) = [0, 1] := by
      have hperm := (hlpt hr8 (collectReady p8 hr8)).1
      have hpair := (hlpt hr8 (collectReady p8 hr8)).2
      rw [hready] at hperm hpair ⊢
      rcases perm_two_cases (by decide) hperm with hcase | hcase
      · exact hcase
      · rw [hcase] at hpair
        have hc := (List.pairwise_cons.1 hpair).1 0 (by simp)
        exact absurd hc (by decide)
    have h1eq : priorityRound sorter cmpLPT p8 hr8 = (e8lpt, true) := by
      show (sorter cmpLPT hr8 (collectReady p8 hr8)).foldl (commitStep p8) (hr8, false)
        = (e8lpt, true)
      rw [hsorted]
      exact Prod.ext rfl (by decide)
    have h2eq : priorityRound sorter cmpLPT p8 e8lpt = (e8lpt, false) := by
      have hready2 : collectReady p8 e8lpt = [] := by decide
      have hnil : sorter cmpLPT e8lpt (collectReady p8 e8lpt) = [] := by
        have hperm := (hlpt e8lpt (collectReady p8 e8lpt)).1
        rw [hready2] at hperm
        exact hperm.eq_nil
      show (sorter cmpLPT e8lpt (collectReady p8 e8lpt)).foldl (commitStep p8) (e8lpt, false)
        = (e8lpt, false)
      rw [hnil]
      rfl
    have hrun : Solver.scheduleLPT sorter p8 h8 = e8lpt := by
      show schedLoop (priorityRound sorter cmpLPT p8) 1000 hr8 = e8lpt
      rw [show (1000 : Nat) = 998 + 2 from rfl]
      exact schedLoop_two_rounds _ hr8 e8lpt 998 h1eq h2eq
    rw [hrun]
    exact ⟨by decide, by decide⟩

/-- Witness for C8 at the concrete conforming sorter. -/
theorem C8_witness :
    (((Solver.scheduleSPT insertionSorter p8 h8).ops 1).startTime = 0 ∧
     ((Solver.scheduleSPT insertionSorter p8 h8).ops 0).startTime = 2) ∧
    (((Solver.scheduleLPT insertionSorter p8 h8).ops 0).startTime = 0 ∧
     ((Solver.scheduleLPT insertionSorter p8 h8).ops 1).startTime = 10) :=
  C8_spt_lpt_scenario insertionSorter insertionSorter_ok_SPT insertionSorter_ok_LPT

end JSSP

namespace JSSP

/-! ### C4: ordering of the ready set -/

/-- Two single-operation jobs on one machine with EQUAL durations, to
exercise tie-breaking. -/
def hTie : Heap :=
  ⟨fun r => if r = 0 then ⟨0, 0, 5, 0, 0, 0⟩ else if r = 1 then ⟨1, 0, 5, 1, 0, 0⟩ else defOp,
   fun r => if r = 0 then ⟨0, [0]⟩ else if r = 1 then ⟨1, [1]⟩ else defJob,
   fun _ => defMach⟩

/-- The problem instance for the tie scenario. -/
def pTie : ProblemInstance := ⟨[0, 1], [0], 2, 1⟩

/-- A conforming `std::sort` behaviour that reverses a tied pair: on a
two-element list whose elements compare equal both ways it returns them
swapped, and otherwise it sorts stably. -/
def swapTieSorter : Sorter := fun cmp h l =>
  match l with
  | [a, b] =>
    if !(cmp (h.ops a) (h.ops b)) && !(cmp (h.ops b) (h.ops a)) then [b, a]
    else insertionSort (fun r s => !(cmp (h.ops s) (h.ops r))) l
  | _ => insertionSort (fun r s => !(cmp (h.ops s) (h.ops r))) l

theorem swapTieSorter_ok_SPT : SorterOK cmpSPT swapTieSorter := by
  intro h l
  rcases l with _ | ⟨a, _ | ⟨b, _ | ⟨c, t⟩⟩⟩
  · exact insertionSort_ok_cmp_SPT h []
  · exact insertionSort_ok_cmp_SPT h [a]
  · by_cases htie : (!(cmpSPT (h.ops a) (h.ops b)) && !(cmpSPT (h.ops b) (h.ops a))) = true
    · have hred : swapTieSorter cmpSPT h [a, b] = [b, a] := by
        show (if !(cmpSPT (h.ops a) (h.ops b)) && !(cmpSPT (h.ops b) (h.ops a)) then [b, a]
              else insertionSort (fun r s => !(cmpSPT (h.ops s) (h.ops r))) [a, b]) = [b, a]
        rw [if_pos htie]
      rw [hred]
      have hab : cmpSPT (h.ops a) (h.ops b) = false := by
        rw [Bool.and_eq_true] at htie
        simpa [Bool.not_eq_true'] using htie.1
      refine ⟨List.Perm.swap a b [], ?_⟩
      refine List.pairwise_cons.2 ⟨?_, by simp⟩
      intro z hz
      rw [List.mem_singleton.1 hz]
      exact hab
    · have hred : swapTieSorter cmpSPT h [a, b]
          = insertionSort (fun r s => !(cmpSPT (h.ops s) (h.ops r))) [a, b] := by
        show (if !(cmpSPT (h.ops a) (h.ops b)) && !(cmpSPT (h.ops b) (h.ops a)) then [b, a]
              else insertionSort (fun r s => !(cmpSPT (h.ops s) (h.ops r))) [a, b])
            = insertionSort (fun r s => !(cmpSPT (h.ops s) (h.ops r))) [a, b]
        rw [if_neg htie]
      rw [hred]
      exact insertionSort_ok_cmp_SPT h [a, b]
  · exact insertionSort_ok_cmp_SPT h (a :: b :: c :: t)

theorem swapTieSorter_ok_LPT : SorterOK cmpLPT swapTieSorter := by
  intro h l
  rcases l with _ | ⟨a, _ | ⟨b, _ | ⟨c, t⟩⟩⟩
  · exact insertionSort_ok_cmp_LPT h []
  · exact insertionSort_ok_cmp_LPT h [a]
  · by_cases htie : (!(cmpLPT (h.ops a) (h.ops b)) && !(cmpLPT (h.ops b) (h.ops a))) = true
    · have hred : swapTieSorter cmpLPT h [a, b] = [b, a] := by
        show (if !(cmpLPT (h.ops a) (h.ops b)) && !(cmpLPT (h.ops b) (h.ops a)) then [b, a]
              else insertionSort (fun r s => !(cmpLPT (h.ops s) (h.ops r))) [a, b]) = [b, a]
        rw [if_pos htie]
      rw [hred]
      have hab : cmpLPT (h.ops a) (h.ops b) = false := by
        rw [Bool.and_eq_true] at htie
        simpa [Bool.not_eq_true'] using htie.1
      refine ⟨List.Perm.swap a b [], ?_⟩
      refine List.pairwise_cons.2 ⟨?_, by simp⟩
      intro z hz
      rw [List.mem_singleton.1 hz]
      exact hab
    · have hred : swapTieSorter cmpLPT h [a, b]
          = insertionSort (fun r s => !(cmpLPT (h.ops s) (h.ops r))) [a, b] := by
        show (if !(cmpLPT (h.ops a) (h.ops b)) && !(cmpLPT (h.ops b) (h.ops a)) then [b, a]
              else insertionSort (fun r s => !(cmpLPT (h.ops s) (h.ops r))) [a, b])
            = insertionSort (fun r s => !(cmpLPT (h.ops s) (h.ops r))) [a, b]
        rw [if_neg htie]
      rw [hred]
      exact insertionSort_ok_cmp_LPT h [a, b]
  · exact insertionSort_ok_cmp_LPT h (a :: b :: c :: t)

/-- The claim C4 as stated, formalised over every behaviour the code's
`std::sort` call is allowed to have: the sorted ready set is ordered
ascending (SPT) / descending (LPT) by processingTime, AND operations of
equal processingTime keep their pre-sort ready-set order (stability,
expressed by filtering both lists to any fixed processingTime). -/
def C4SortClaim : Prop :=
  ∀ sorter : Sorter, SorterOK cmpSPT sorter → SorterOK cmpLPT sorter →
    ∀ (p : ProblemInstance) (h : Heap),
      (List.Pairwise (fun r s => (h.ops r).processingTime ≤ (h.ops s).processingTime)
          (sorter cmpSPT h (collectReady p h)) ∧
       List.Pairwise (fun r s => (h.ops s).processingTime ≤ (h.ops r).processingTime)
          (sorter cmpLPT h (collectReady p h))) ∧
      ∀ t : Int,
        (sorter cmpSPT h (collectReady p h)).filter
            (fun r => decide ((h.ops r).processingTime = t))
          = (collectReady p h).filter (fun r => decide ((h.ops r).processingTime = t)) ∧
        (sorter cmpLPT h (collectReady p h)).filter
            (fun r => decide ((h.ops r).processingTime = t))
          = (collectReady p h).filter (fun r => decide ((h.ops r).processingTime = t))

/-- C4 counterexample: `std::sort` is not a stable sort, so the claim's
tie-breaking sentence does not hold of the code: a conforming sort
behaviour may reorder the two equal-duration ready operations of
`pTie`. -/
theorem C4_counterexample_unstable : ¬ C4SortClaim := by
  intro hcl
  have hbad :=
    ((hcl swapTieSorter swapTieSorter_ok_SPT swapTieSorter_ok_LPT pTie hTie).2 5).1
  exact absurd hbad (by decide)

/-- C4 (amended): in each round of SPT/LPT scheduling the sorted ready
set is ordered ascending (SPT) respectively descending (LPT) by
processingTime; the relative order of operations with equal
processingTime is unspecified, because `std::sort` carries no stability
guarantee. -/
theorem C4_sorted_by_rule (sorter : Sorter)
    (hspt : SorterOK cmpSPT sorter) (hlpt : SorterOK cmpLPT sorter)
    (p : ProblemInstance) (h : Heap) :
    List.Pairwise (fun r s => (h.ops r).processingTime ≤ (h.ops s).processingTime)
      (sorter cmpSPT h (collectReady p h)) ∧
    List.Pairwise (fun r s => (h.ops s).processingTime ≤ (h.ops r).processingTime)
      (sorter cmpLPT h (collectReady p h)) := by
  constructor
  · refine ((hspt h (collectReady p h)).2).imp (fun hc => ?_)
    simp only [cmpSPT, decide_eq_false_iff_not, not_lt] at hc
    exact hc
  · refine ((hlpt h (collectReady p h)).2).imp (fun hc => ?_)
    simp only [cmpLPT, gt_iff_lt, decide_eq_false_iff_not, not_lt] at hc
    exact hc

/-- Witness for C4 at the concrete conforming sorter and the tie
scenario. -/
theorem C4_witness :
    List.Pairwise (fun r s => (hTie.ops r).processingTime ≤ (hTie.ops s).processingTime)
      (insertionSorter cmpSPT hTie (collectReady pTie hTie)) ∧
    List.Pairwise (fun r s => (hTie.ops s).processingTime ≤ (hTie.ops r).processingTime)
      (insertionSorter cmpLPT hTie (collectReady pTie hTie)) :=
  C4_sorted_by_rule insertionSorter insertionSorter_ok_SPT insertionSorter_ok_LPT pTie hTie

end JSSP

namespace JSSP

/-! ### The machine-exclusivity invariant (C2) -/

/-- Invariant carried through the scheduling loops: on every machine of
the problem, all listed operations are genuinely scheduled, adjacent
listed operations do not overlap, and `availableTime` is the end time of
the last listed operation (0 if none). -/
def MachInv (p : ProblemInstance) (h : Heap) : Prop :=
  ∀ mref ∈ p.machines,
    (∀ r ∈ (h.machines mref).scheduledOperations,
        (h.ops r).startTime < (h.ops r).endTime) ∧
    List.Chain' (fun a b => (h.ops a).endTime ≤ (h.ops b).startTime)
      (h.machines mref).scheduledOperations ∧
    (h.machines mref).availableTime
      = (match (h.machines mref).scheduledOperations.getLast? with
         | none => 0
         | some r => (h.ops r).endTime)

/-- Every operation of every job of the problem has strictly positive
processing time. -/
def PosTimes (p : ProblemInstance) (h : Heap) : Prop :=
  ∀ jref ∈ p.jobs, ∀ r ∈ (h.jobs jref).operations, 0 < (h.ops r).processingTime

theorem getMachine_mem {p : ProblemInstance} {mid : Int} {mref : Nat}
    (hm : p.getMachine mid = some mref) : mref ∈ p.machines := by
  rw [ProblemInstance.getMachine] at hm
  split at hm
  · injection hm with h1
    rw [← h1]
    exact List.get_mem _ _ _
  · cases hm

theorem getLast?_mem_list {l : List Nat} {x : Nat} (hx : l.getLast? = some x) :
    x ∈ l := by
  obtain ⟨h0, hxeq⟩ := List.mem_getLast?_eq_getLast (show x ∈ l.getLast? by simp [hx])
  rw [hxeq]
  exact List.getLast_mem h0

theorem chain'_ops_congr (f g : Nat → Operation) (l : List Nat)
    (hagree : ∀ x ∈ l, g x = f x)
    (hc : List.Chain' (fun a b => (f a).endTime ≤ (f b).startTime) l) :
    List.Chain' (fun a b => (g a).endTime ≤ (g b).startTime) l := by
  induction l with
  | nil => simp
  | cons a t ih =>
    cases t with
    | nil => simp
    | cons b t2 =>
      rw [List.chain'_cons] at hc ⊢
      refine ⟨?_, ih (fun x hx => hagree x (List.mem_cons_of_mem a hx)) hc.2⟩
      rw [hagree a (by simp), hagree b (by simp [List.mem_cons])]
      exact hc.1

theorem unscheduled_not_lt {op : Operation} (hu : op.isScheduled = false) :
    ¬ op.startTime < op.endTime := by
  rw [Operation.isScheduled] at hu
  simpa using hu

/-- One commit preserves the machine invariant, as long as the committed
operation is unscheduled, has positive duration, targets an existing
machine, and starts no earlier than that machine is available. -/
theorem MachInv_schedOp (p : ProblemInstance) (h : Heap) (mref r : Nat) (st : Int)
    (hInv : MachInv p h)
    (hm : p.getMachine (h.ops r).machineId = some mref)
    (hunsched : (h.ops r).isScheduled = false)
    (hpos : 0 < (h.ops r).processingTime)
    (hst : (h.machines mref).availableTime ≤ st) :
    MachInv p (Machine.scheduleOperation h mref (some r) st) := by
  intro m hmem
  obtain ⟨hSch, hChain, hAvail⟩ := hInv m hmem
  have hrnotin : r ∉ (h.machines m).scheduledOperations := by
    intro hr
    exact unscheduled_not_lt hunsched (hSch r hr)
  by_cases hmm : m = mref
  · subst hmm
    rw [schedOp_machines h m r st m, if_pos rfl]
    refine ⟨?_, ?_, ?_⟩
    · intro x hx
      rcases List.mem_append.1 hx with hxo | hxr
      · have hxne : x ≠ r := fun hxe => hrnotin (hxe ▸ hxo)
        rw [schedOp_ops h m r st x, if_neg hxne]
        exact hSch x hxo
      · rw [List.mem_singleton.1 hxr, schedOp_ops h m r st r, if_pos rfl]
        simp only [Operation.setScheduled]
        omega
    · rw [List.chain'_append]
      refine ⟨?_, List.chain'_singleton r, ?_⟩
      · apply chain'_ops_congr h.ops _ _ (fun x hx => ?_) hChain
        have hxne : x ≠ r := fun hxe => hrnotin (hxe ▸ hx)
        rw [schedOp_ops h m r st x, if_neg hxne]
      · intro x hxlast y hyhead
        have hy : r = y := by simpa using hyhead
        subst hy
        have hxlast2 : (h.machines m).scheduledOperations.getLast? = some x := by
          simpa using hxlast
        have hxmem := getLast?_mem_list hxlast2
        have hxne : x ≠ r := fun hxe => hrnotin (hxe ▸ hxmem)
        rw [schedOp_ops h m r st x, if_neg hxne, schedOp_ops h m r st r, if_pos rfl]
        have hxend : (h.ops x).endTime = (h.machines m).availableTime := by
          rw [hAvail, hxlast2]
        simp only [Operation.setScheduled]
        rw [hxend]
        exact hst
    · rw [List.getLast?_concat]
      show st + (h.ops r).processingTime
          = ((Machine.scheduleOperation h m (some r) st).ops r).endTime
      rw [schedOp_ops h m r st r, if_pos rfl]
      simp [Operation.setScheduled]
  · rw [schedOp_machines h mref r st m, if_neg hmm]
    refine ⟨?_, ?_, ?_⟩
    · intro x hx
      have hxne : x ≠ r := fun hxe => hrnotin (hxe ▸ hx)
      rw [schedOp_ops h mref r st x, if_neg hxne]
      exact hSch x hx
    · apply chain'_ops_congr h.ops _ _ (fun x hx => ?_) hChain
      have hxne : x ≠ r := fun hxe => hrnotin (hxe ▸ hx)
      rw [schedOp_ops h mref r st x, if_neg hxne]
    · rw [hAvail]
      cases hlast : (h.machines m).scheduledOperations.getLast? with
      | none => rfl
      | some x =>
        have hxmem := getLast?_mem_list hlast
        have hxne : x ≠ r := fun hxe => hrnotin (hxe ▸ hxmem)
        show (h.ops x).endTime
            = ((Machine.scheduleOperation h mref (some r) st).ops x).endTime
        rw [schedOp_ops h mref r st x, if_neg hxne]

end JSSP

namespace JSSP

/-! ### Outcome characterisation of the two step functions -/

theorem fifoStep_eq (p : ProblemInstance) (jref : Nat) (acc : Heap × Bool) (r : Nat) :
    fifoStep p jref acc r = acc ∨
    ∃ mref, (acc.1.ops r).isScheduled = false ∧
      p.getMachine (acc.1.ops r).machineId = some mref ∧
      allPrevOpsCompleted acc.1 ((acc.1.jobs jref)).operations
        (acc.1.ops r).operationId = true ∧
      fifoStep p jref acc r =
        (Machine.scheduleOperation acc.1 mref (some r)
          (max (acc.1.machines mref).availableTime
            (jobReadyTime acc.1 ((acc.1.jobs jref)).operations
              (acc.1.ops r).operationId)), true) := by
  simp only [fifoStep]
  by_cases hsched : (acc.1.ops r).isScheduled = true
  · rw [if_pos hsched]
    exact Or.inl rfl
  · rw [if_neg hsched]
    have hsched2 : (acc.1.ops r).isScheduled = false := by
      simpa using hsched
    cases hm : p.getMachine (acc.1.ops r).machineId with
    | none => exact Or.inl rfl
    | some mref =>
      dsimp only
      by_cases hprev : allPrevOpsCompleted acc.1 ((acc.1.jobs jref)).operations
          (acc.1.ops r).operationId = true
      · rw [if_pos hprev]
        exact Or.inr ⟨mref, hsched2, rfl, hprev, rfl⟩
      · rw [if_neg hprev]
        exact Or.inl rfl

theorem commitStep_eq (p : ProblemInstance) (acc : Heap × Bool) (r : Nat) :
    commitStep p acc r = acc ∨
    ∃ mref, (acc.1.ops r).isScheduled = false ∧
      p.getMachine (acc.1.ops r).machineId = some mref ∧
      commitStep p acc r =
        (Machine.scheduleOperation acc.1 mref (some r)
          (max (acc.1.machines mref).availableTime
            (match p.getJob (acc.1.ops r).jobId with
             | none => 0
             | some jref => jobReadyTime acc.1 ((acc.1.jobs jref)).operations
                 (acc.1.ops r).operationId)), true) := by
  simp only [commitStep]
  by_cases hsched : (acc.1.ops r).isScheduled = true
  · rw [if_pos hsched]
    exact Or.inl rfl
  · rw [if_neg hsched]
    have hsched2 : (acc.1.ops r).isScheduled = false := by
      simpa using hsched
    cases hm : p.getMachine (acc.1.ops r).machineId with
    | none => exact Or.inl rfl
    | some mref =>
      dsimp only
      exact Or.inr ⟨mref, hsched2, rfl, rfl⟩

/-! ### Round preservation of the machine invariant -/

theorem commit_fold_preserves (p : ProblemInstance) (h0 : Heap) (L : List Nat)
    (hmem : ∀ r ∈ L, ∃ jref ∈ p.jobs, r ∈ (h0.jobs jref).operations)
    (hPos : PosTimes p h0) (acc : Heap × Bool)
    (hInv : MachInv p acc.1) (hE : Evolves h0 acc.1) :
    MachInv p (L.foldl (commitStep p) acc).1 ∧
    Evolves h0 (L.foldl (commitStep p) acc).1 := by
  refine foldl_preserve (commitStep p)
    (fun a => MachInv p a.1 ∧ Evolves h0 a.1) L acc ?_ ⟨hInv, hE⟩
  intro a r hr ⟨haInv, haE⟩
  rcases commitStep_eq p a r with heq | ⟨mref, hunsched, hm, heq⟩
  · rw [heq]; exact ⟨haInv, haE⟩
  · rw [heq]
    have hpos : 0 < (a.1.ops r).processingTime := by
      obtain ⟨jref, hj, hrops⟩ := hmem r hr
      have := hPos jref hj r hrops
      rw [(haE.2.1 r).2.2.1]
      exact this
    refine ⟨MachInv_schedOp p a.1 mref r _ haInv hm hunsched hpos (le_max_left _ _), ?_⟩
    exact haE.trans (evolves_schedOp a.1 mref r _ hunsched)

theorem priorityRound_preserves (p : ProblemInstance) (h0 : Heap)
    (sorter : Sorter) (cmp : Operation → Operation → Bool)
    (hperm : ∀ h1 l, List.Perm (sorter cmp h1 l) l)
    (hPos : PosTimes p h0) (h : Heap)
    (hInv : MachInv p h) (hE : Evolves h0 h) :
    MachInv p (priorityRound sorter cmp p h).1 ∧
    Evolves h0 (priorityRound sorter cmp p h).1 := by
  have hmem : ∀ r ∈ sorter cmp h (collectReady p h),
      ∃ jref ∈ p.jobs, r ∈ (h0.jobs jref).operations := by
    intro r hr
    have hrc := (hperm h (collectReady p h)).mem_iff.1 hr
    obtain ⟨jref, hj, hrops, _, _⟩ := mem_collectReady.1 hrc
    rw [hE.1] at hrops
    exact ⟨jref, hj, hrops⟩
  exact commit_fold_preserves p h0 _ hmem hPos (h, false) hInv hE

theorem fifo_inner_preserves (p : ProblemInstance) (h0 : Heap) (jref : Nat)
    (hj : jref ∈ p.jobs) (hPos : PosTimes p h0) (L : List Nat)
    (hL : ∀ r ∈ L, r ∈ (h0.jobs jref).operations) (acc : Heap × Bool)
    (hInv : MachInv p acc.1) (hE : Evolves h0 acc.1) :
    MachInv p (L.foldl (fifoStep p jref) acc).1 ∧
    Evolves h0 (L.foldl (fifoStep p jref) acc).1 := by
  refine foldl_preserve (fifoStep p jref)
    (fun a => MachInv p a.1 ∧ Evolves h0 a.1) L acc ?_ ⟨hInv, hE⟩
  intro a r hr ⟨haInv, haE⟩
  rcases fifoStep_eq p jref a r with heq | ⟨mref, hunsched, hm, _, heq⟩
  · rw [heq]; exact ⟨haInv, haE⟩
  · rw [heq]
    have hpos : 0 < (a.1.ops r).processingTime := by
      have := hPos jref hj r (hL r hr)
      rw [(haE.2.1 r).2.2.1]
      exact this
    refine ⟨MachInv_schedOp p a.1 mref r _ haInv hm hunsched hpos (le_max_left _ _), ?_⟩
    exact haE.trans (evolves_schedOp a.1 mref r _ hunsched)

theorem fifoRound_preserves (p : ProblemInstance) (h0 : Heap)
    (hPos : PosTimes p h0) (h : Heap)
    (hInv : MachInv p h) (hE : Evolves h0 h) :
    MachInv p (fifoRound p h).1 ∧ Evolves h0 (fifoRound p h).1 := by
  refine foldl_preserve _ (fun a => MachInv p a.1 ∧ Evolves h0 a.1)
    p.jobs (h, false) ?_ ⟨hInv, hE⟩
  intro a jref hjref ⟨haInv, haE⟩
  have hlist : (a.1.jobs jref) = (h0.jobs jref) := by rw [haE.1]
  rw [hlist]
  exact fifo_inner_preserves p h0 jref hjref hPos _ (fun r hr => hr) a haInv haE

theorem schedLoop_preserves (R : Heap → Heap × Bool) (P : Heap → Prop)
    (hstep : ∀ h, P h → P (R h).1) :
    ∀ (n : Nat) (h : Heap), P h → P (schedLoop R n h)
  | 0, _, hP => hP
  | n + 1, h, hP => by
    rw [schedLoop_succ]
    by_cases hflag : (R h).2 = true
    · rw [if_pos hflag]
      exact schedLoop_preserves R P hstep n (R h).1 (hstep h hP)
    · rw [if_neg hflag]
      exact hstep h hP

end JSSP

namespace JSSP

/-! ### C2 assembly -/

theorem MachInv_after_reset (p : ProblemInstance) (h : Heap) :
    MachInv p (resetOperations p (resetMachines p h)) := by
  intro mref hmem
  have hmach : (resetOperations p (resetMachines p h)).machines mref
      = { (h.machines mref) with scheduledOperations := [], availableTime := 0 } := by
    rw [resetOperations_machines]
    have hfold := resetMachines_fold_machines p.machines h mref
    rw [if_pos hmem] at hfold
    exact hfold
  rw [hmach]
  exact ⟨fun r hr => absurd hr (List.not_mem_nil r), by simp, rfl⟩

theorem PosTimes_after_reset (p : ProblemInstance) (h : Heap) (hPos : PosTimes p h) :
    PosTimes p (resetOperations p (resetMachines p h)) := by
  intro jref hj r hr
  rw [resetOperations_jobs, resetMachines_jobs] at hr
  have hpt := hPos jref hj r hr
  rw [resetOperations_ops]
  have hrm : (resetMachines p h).ops = h.ops := resetMachines_ops p h
  by_cases hex : ∃ jref2 ∈ p.jobs, r ∈ ((resetMachines p h).jobs jref2).operations
  · rw [if_pos hex]
    simpa [hrm] using hpt
  · rw [if_neg hex]
    simpa [hrm] using hpt

theorem chain_start_mono (h' : Heap) (l : List Nat)
    (hpos : ∀ r ∈ l, (h'.ops r).startTime < (h'.ops r).endTime)
    (hchain : List.Chain' (fun a b => (h'.ops a).endTime ≤ (h'.ops b).startTime) l) :
    List.Chain' (fun a b => (h'.ops a).startTime ≤ (h'.ops b).startTime) l := by
  induction l with
  | nil => simp
  | cons a t ih =>
    cases t with
    | nil => simp
    | cons b t2 =>
      rw [List.chain'_cons] at hchain ⊢
      refine ⟨?_, ih (fun x hx => hpos x (List.mem_cons_of_mem a hx)) hchain.2⟩
      have h1 := hpos a (by simp)
      have h2 := hchain.1
      omega

/-- The machine-exclusivity property asserted by the spec: scheduled
operation lists are non-overlapping chains in non-decreasing start
order, and `availableTime` is the last listed end time (0 if none). -/
def MachineExclusive (p : ProblemInstance) (h' : Heap) : Prop :=
  ∀ mref ∈ p.machines,
    List.Chain' (fun a b => (h'.ops a).endTime ≤ (h'.ops b).startTime)
      (h'.machines mref).scheduledOperations ∧
    List.Chain' (fun a b => (h'.ops a).startTime ≤ (h'.ops b).startTime)
      (h'.machines mref).scheduledOperations ∧
    (h'.machines mref).availableTime
      = (match (h'.machines mref).scheduledOperations.getLast? with
         | none => 0
         | some r => (h'.ops r).endTime)

/-- C2: for every problem whose operations all have strictly positive
processing time, every rule and every conforming `std::sort` behaviour,
the schedule pass leaves every machine of the problem with a
non-overlapping scheduled-operations list in non-decreasing start order
whose intervals satisfy start(next) ≥ end(previous), and with
`availableTime` equal to the end time of its last scheduled operation
(0 if it has none). -/
theorem C2_machine_exclusivity (sorter : Sorter)
    (hspt : SorterOK cmpSPT sorter) (hlpt : SorterOK cmpLPT sorter)
    (alg : SchedulingAlgorithm) (p : ProblemInstance) (h : Heap)
    (hPos : PosTimes p h) :
    MachineExclusive p (runAlgorithm sorter alg p h) := by
  have hPos0 := PosTimes_after_reset p h hPos
  have hInv0 := MachInv_after_reset p h
  have hfinal : MachInv p (runAlgorithm sorter alg p h) := by
    cases alg with
    | FIFO =>
      have hloop := schedLoop_preserves (fifoRound p)
        (fun h2 => MachInv p h2 ∧ Evolves (resetOperations p (resetMachines p h)) h2)
        (fun h2 hP => fifoRound_preserves p _ hPos0 h2 hP.1 hP.2)
        1000 (resetOperations p (resetMachines p h))
        ⟨hInv0, Evolves.refl _⟩
      exact hloop.1
    | SPT =>
      have hloop := schedLoop_preserves (priorityRound sorter cmpSPT p)
        (fun h2 => MachInv p h2 ∧ Evolves (resetOperations p (resetMachines p h)) h2)
        (fun h2 hP => priorityRound_preserves p _ sorter cmpSPT
          (fun h1 l => (hspt h1 l).1) hPos0 h2 hP.1 hP.2)
        1000 (resetOperations p (resetMachines p h))
        ⟨hInv0, Evolves.refl _⟩
      exact hloop.1
    | LPT =>
      have hloop := schedLoop_preserves (priorityRound sorter cmpLPT p)
        (fun h2 => MachInv p h2 ∧ Evolves (resetOperations p (resetMachines p h)) h2)
        (fun h2 hP => priorityRound_preserves p _ sorter cmpLPT
          (fun h1 l => (hlpt h1 l).1) hPos0 h2 hP.1 hP.2)
        1000 (resetOperations p (resetMachines p h))
        ⟨hInv0, Evolves.refl _⟩
      exact hloop.1
  intro mref hmem
  obtain ⟨hSch, hChain, hAvail⟩ := hfinal mref hmem
  exact ⟨hChain, chain_start_mono _ _ hSch hChain, hAvail⟩

/-- Witness for C2 on the SPT-vs-LPT scenario under the concrete
conforming sorter, for each of the three rules. -/
theorem C2_witness :
    (PosTimes p8 h8) ∧
    MachineExclusive p8 (runAlgorithm insertionSorter SchedulingAlgorithm.FIFO p8 h8) ∧
    MachineExclusive p8 (runAlgorithm insertionSorter SchedulingAlgorithm.SPT p8 h8) ∧
    MachineExclusive p8 (runAlgorithm insertionSorter SchedulingAlgorithm.LPT p8 h8) := by
  have hPos : PosTimes p8 h8 := by
    unfold PosTimes
    decide
  refine ⟨hPos, ?_, ?_, ?_⟩ <;>
    exact C2_machine_exclusivity insertionSorter insertionSorter_ok_SPT
      insertionSorter_ok_LPT _ p8 h8 hPos

end JSSP

namespace JSSP

/-! ### The intra-job precedence invariant (C1) -/

/-- Well-formedness assumed by the amended C1: every operation stored in
the job at position `i` of the problem carries `jobId = i`, i.e.
operations belong to the job that holds them (this is how the parser
builds instances).  `scheduleWithPriority` recomputes the job-ready time
through `getJob(op->jobId)`, so it silently relies on this. -/
def WF (p : ProblemInstance) (h : Heap) : Prop :=
  ∀ (i : Nat), ∀ (hi : i < p.jobs.length),
    ∀ r ∈ (h.jobs (p.jobs.get ⟨i, hi⟩)).operations, (h.ops r).jobId = (i : Int)

/-- The precedence property of C1: within any job of the problem, a
scheduled operation ends no later than any scheduled sibling with a
larger operationId starts. -/
def JobInv (p : ProblemInstance) (h : Heap) : Prop :=
  ∀ jref ∈ p.jobs, ∀ a ∈ (h.jobs jref).operations, ∀ b ∈ (h.jobs jref).operations,
    (h.ops a).operationId < (h.ops b).operationId →
    (h.ops a).isScheduled = true → (h.ops b).isScheduled = true →
    (h.ops a).endTime ≤ (h.ops b).startTime

/-- Auxiliary invariant: a scheduled operation has all smaller-id
siblings scheduled (the ready check enforces this at commit time). -/
def NoOrphans (p : ProblemInstance) (h : Heap) : Prop :=
  ∀ jref ∈ p.jobs, ∀ a ∈ (h.jobs jref).operations, ∀ b ∈ (h.jobs jref).operations,
    (h.ops a).operationId < (h.ops b).operationId →
    (h.ops b).isScheduled = true → (h.ops a).isScheduled = true

theorem WF_evolves {p : ProblemInstance} {h h' : Heap}
    (hwf : WF p h) (hE : Evolves h h') : WF p h' := by
  intro i hi r hr
  rw [hE.1] at hr
  rw [(hE.2.1 r).1]
  exact hwf i hi r hr

theorem WF_unique_job {p : ProblemInstance} {h : Heap} (hwf : WF p h)
    {r jref1 jref2 : Nat} (h1 : jref1 ∈ p.jobs) (h2 : jref2 ∈ p.jobs)
    (hr1 : r ∈ (h.jobs jref1).operations) (hr2 : r ∈ (h.jobs jref2).operations) :
    jref1 = jref2 := by
  obtain ⟨i1, hg1⟩ := List.mem_iff_get.1 h1
  obtain ⟨i2, hg2⟩ := List.mem_iff_get.1 h2
  have e1 : (h.ops r).jobId = (i1.1 : Int) :=
    hwf i1.1 i1.2 r (by rw [show p.jobs.get ⟨i1.1, i1.2⟩ = jref1 from hg1]; exact hr1)
  have e2 : (h.ops r).jobId = (i2.1 : Int) :=
    hwf i2.1 i2.2 r (by rw [show p.jobs.get ⟨i2.1, i2.2⟩ = jref2 from hg2]; exact hr2)
  have hii : i1.1 = i2.1 := by
    have h3 : (i1.1 : Int) = (i2.1 : Int) := by rw [← e1, ← e2]
    exact_mod_cast h3
  rw [← hg1, ← hg2]
  congr 1
  exact Fin.ext hii

theorem WF_getJob {p : ProblemInstance} {h : Heap} (hwf : WF p h)
    {r jref : Nat} (hj : jref ∈ p.jobs) (hr : r ∈ (h.jobs jref).operations) :
    p.getJob (h.ops r).jobId = some jref := by
  obtain ⟨i, hg⟩ := List.mem_iff_get.1 hj
  have e : (h.ops r).jobId = (i.1 : Int) :=
    hwf i.1 i.2 r (by rw [show p.jobs.get ⟨i.1, i.2⟩ = jref from hg]; exact hr)
  rw [ProblemInstance.getJob, e]
  have hc : 0 ≤ (i.1 : Int) ∧ ((i.1 : Int)).toNat < p.jobs.length :=
    ⟨Int.ofNat_nonneg i.1, by simpa using i.2⟩
  rw [dif_pos hc]
  simp only [Int.toNat_ofNat]
  exact congrArg some hg

/-- A commit preserves the precedence invariants, provided the committed
operation was ready (all smaller-id siblings scheduled in every job that
contains it) and starts no earlier than every such sibling's end. -/
theorem JobInv_schedOp (p : ProblemInstance) (h : Heap) (mref r : Nat) (st : Int)
    (hJ : JobInv p h) (hN : NoOrphans p h)
    (hunsched : (h.ops r).isScheduled = false)
    (hready : ∀ jref ∈ p.jobs, r ∈ (h.jobs jref).operations →
        ∀ a ∈ (h.jobs jref).operations,
          (h.ops a).operationId < (h.ops r).operationId →
          (h.ops a).isScheduled = true)
    (hst : ∀ jref ∈ p.jobs, r ∈ (h.jobs jref).operations →
        ∀ a ∈ (h.jobs jref).operations,
          (h.ops a).operationId < (h.ops r).operationId →
          (h.ops a).endTime ≤ st) :
    JobInv p (Machine.scheduleOperation h mref (some r) st) ∧
    NoOrphans p (Machine.scheduleOperation h mref (some r) st) := by
  have hjobs := schedOp_jobs h mref r st
  have hopr : (Machine.scheduleOperation h mref (some r) st).ops r
      = (h.ops r).setScheduled st (st + (h.ops r).processingTime) := by
    rw [schedOp_ops h mref r st r, if_pos rfl]
  constructor
  · intro jref hj a ha b hb hlt hsa hsb
    rw [hjobs] at ha hb
    by_cases hbr : b = r
    · subst hbr
      by_cases har : a = b
      · subst har; exact absurd hlt (lt_irrefl _)
      · have hopa : (Machine.scheduleOperation h mref (some b) st).ops a = h.ops a := by
          rw [schedOp_ops h mref b st a, if_neg har]
        rw [hopa] at hlt hsa ⊢
        rw [hopr] at hlt ⊢
        dsimp only [Operation.setScheduled] at hlt ⊢
        exact hst jref hj hb a ha hlt
    · have hopb : (Machine.scheduleOperation h mref (some r) st).ops b = h.ops b := by
        rw [schedOp_ops h mref r st b, if_neg hbr]
      by_cases har : a = r
      · subst har
        rw [hopb] at hlt hsb
        rw [hopr] at hlt
        dsimp only [Operation.setScheduled] at hlt
        have hcontra := hN jref hj a ha b hb hlt hsb
        rw [hcontra] at hunsched
        cases hunsched
      · have hopa : (Machine.scheduleOperation h mref (some r) st).ops a = h.ops a := by
          rw [schedOp_ops h mref r st a, if_neg har]
        rw [hopa] at hlt hsa ⊢
        rw [hopb] at hlt hsb ⊢
        exact hJ jref hj a ha b hb hlt hsa hsb
  · intro jref hj a ha b hb hlt hsb
    rw [hjobs] at ha hb
    by_cases hbr : b = r
    · subst hbr
      by_cases har : a = b
      · subst har; exact absurd hlt (lt_irrefl _)
      · have hopa : (Machine.scheduleOperation h mref (some b) st).ops a = h.ops a := by
          rw [schedOp_ops h mref b st a, if_neg har]
        rw [hopa] at hlt ⊢
        rw [hopr] at hlt
        dsimp only [Operation.setScheduled] at hlt
        exact hready jref hj hb a ha hlt
    · have hopb : (Machine.scheduleOperation h mref (some r) st).ops b = h.ops b := by
        rw [schedOp_ops h mref r st b, if_neg hbr]
      rw [hopb] at hlt hsb
      by_cases har : a = r
      · subst har
        rw [hopr] at hlt ⊢
        dsimp only [Operation.setScheduled] at hlt
        have hcontra := hN jref hj a ha b hb hlt hsb
        rw [hcontra] at hunsched
        cases hunsched
      · have hopa : (Machine.scheduleOperation h mref (some r) st).ops a = h.ops a := by
          rw [schedOp_ops h mref r st a, if_neg har]
        rw [hopa] at hlt ⊢
        exact hN jref hj a ha b hb hlt hsb

end JSSP

namespace JSSP

/-! ### C1 round preservation and assembly -/

theorem fifo_inner_jobinv (p : ProblemInstance) (h1 : Heap) (jref : Nat)
    (hwf1 : WF p h1) (hj : jref ∈ p.jobs) (L : List Nat)
    (hL : ∀ r ∈ L, r ∈ (h1.jobs jref).operations) (acc : Heap × Bool)
    (hJ : JobInv p acc.1) (hN : NoOrphans p acc.1) (hE : Evolves h1 acc.1) :
    JobInv p (L.foldl (fifoStep p jref) acc).1 ∧
    NoOrphans p (L.foldl (fifoStep p jref) acc).1 ∧
    Evolves h1 (L.foldl (fifoStep p jref) acc).1 := by
  refine foldl_preserve (fifoStep p jref)
    (fun a => JobInv p a.1 ∧ NoOrphans p a.1 ∧ Evolves h1 a.1) L acc ?_ ⟨hJ, hN, hE⟩
  intro a r hr hP
  obtain ⟨haJ, haN, haE⟩ := hP
  rcases fifoStep_eq p jref a r with heq | ⟨mref, hunsched, hm, hprev, heq⟩
  · rw [heq]; exact ⟨haJ, haN, haE⟩
  · rw [heq]
    have hwfc : WF p a.1 := WF_evolves hwf1 haE
    have hrin : r ∈ (a.1.jobs jref).operations := by rw [haE.1]; exact hL r hr
    have hprev2 := (allPrevOpsCompleted_iff a.1 _ _).1 hprev
    have hready : ∀ jref2 ∈ p.jobs, r ∈ (a.1.jobs jref2).operations →
        ∀ x ∈ (a.1.jobs jref2).operations,
          (a.1.ops x).operationId < (a.1.ops r).operationId →
          (a.1.ops x).isScheduled = true := by
      intro jref2 hj2 hrin2 x hx hxlt
      have hjeq : jref2 = jref := WF_unique_job hwfc hj2 hj hrin2 hrin
      subst hjeq
      exact hprev2 x hx hxlt
    have hst : ∀ jref2 ∈ p.jobs, r ∈ (a.1.jobs jref2).operations →
        ∀ x ∈ (a.1.jobs jref2).operations,
          (a.1.ops x).operationId < (a.1.ops r).operationId →
          (a.1.ops x).endTime ≤ max (a.1.machines mref).availableTime
            (jobReadyTime a.1 ((a.1.jobs jref)).operations (a.1.ops r).operationId) := by
      intro jref2 hj2 hrin2 x hx hxlt
      have hjeq : jref2 = jref := WF_unique_job hwfc hj2 hj hrin2 hrin
      subst hjeq
      exact le_trans (endTime_le_jobReadyTime a.1 _ _ x hx hxlt) (le_max_right _ _)
    have hres := JobInv_schedOp p a.1 mref r _ haJ haN hunsched hready hst
    exact ⟨hres.1, hres.2, haE.trans (evolves_schedOp a.1 mref r _ hunsched)⟩

theorem fifoRound_jobinv (p : ProblemInstance) (h : Heap)
    (hwf : WF p h) (hJ : JobInv p h) (hN : NoOrphans p h) :
    JobInv p (fifoRound p h).1 ∧ NoOrphans p (fifoRound p h).1 ∧
    Evolves h (fifoRound p h).1 := by
  refine foldl_preserve _
    (fun a => JobInv p a.1 ∧ NoOrphans p a.1 ∧ Evolves h a.1) p.jobs (h, false) ?_
    ⟨hJ, hN, Evolves.refl h⟩
  intro a jref hjref hP
  obtain ⟨haJ, haN, haE⟩ := hP
  have hlist : a.1.jobs jref = h.jobs jref := by rw [haE.1]
  rw [hlist]
  exact fifo_inner_jobinv p h jref hwf hjref _ (fun r hr => hr) a haJ haN haE

theorem commit_fold_jobinv (p : ProblemInstance) (h1 : Heap) (hwf1 : WF p h1)
    (L : List Nat) (hL : ∀ r ∈ L, r ∈ collectReady p h1) (acc : Heap × Bool)
    (hJ : JobInv p acc.1) (hN : NoOrphans p acc.1) (hE : Evolves h1 acc.1) :
    JobInv p (L.foldl (commitStep p) acc).1 ∧
    NoOrphans p (L.foldl (commitStep p) acc).1 ∧
    Evolves h1 (L.foldl (commitStep p) acc).1 := by
  refine foldl_preserve (commitStep p)
    (fun a => JobInv p a.1 ∧ NoOrphans p a.1 ∧ Evolves h1 a.1) L acc ?_ ⟨hJ, hN, hE⟩
  intro a r hr hP
  obtain ⟨haJ, haN, haE⟩ := hP
  rcases commitStep_eq p a r with heq | ⟨mref, hunsched, hm, heq⟩
  · rw [heq]; exact ⟨haJ, haN, haE⟩
  · rw [heq]
    have hwfc : WF p a.1 := WF_evolves hwf1 haE
    obtain ⟨jrefC, hjC, hrC, hunschC, hprevC⟩ := mem_collectReady.1 (hL r hr)
    have hrinC : r ∈ (a.1.jobs jrefC).operations := by rw [haE.1]; exact hrC
    have hprevC2 := (allPrevOpsCompleted_iff h1 _ _).1 hprevC
    have hready : ∀ jref2 ∈ p.jobs, r ∈ (a.1.jobs jref2).operations →
        ∀ x ∈ (a.1.jobs jref2).operations,
          (a.1.ops x).operationId < (a.1.ops r).operationId →
          (a.1.ops x).isScheduled = true := by
      intro jref2 hj2 hrin2 x hx hxlt
      have hjeq : jref2 = jrefC := WF_unique_job hwfc hj2 hjC hrin2 hrinC
      rw [hjeq] at hx
      have hx1 : x ∈ (h1.jobs jrefC).operations := by rw [← haE.1]; exact hx
      have hid_x : (a.1.ops x).operationId = (h1.ops x).operationId := (haE.2.1 x).2.2.2
      have hid_r : (a.1.ops r).operationId = (h1.ops r).operationId := (haE.2.1 r).2.2.2
      rw [hid_x, hid_r] at hxlt
      exact haE.sched_mono x (hprevC2 x hx1 hxlt)
    have hst : ∀ jref2 ∈ p.jobs, r ∈ (a.1.jobs jref2).operations →
        ∀ x ∈ (a.1.jobs jref2).operations,
          (a.1.ops x).operationId < (a.1.ops r).operationId →
          (a.1.ops x).endTime ≤ max (a.1.machines mref).availableTime
            (match p.getJob (a.1.ops r).jobId with
             | none => 0
             | some jref => jobReadyTime a.1 ((a.1.jobs jref)).operations
                 (a.1.ops r).operationId) := by
      intro jref2 hj2 hrin2 x hx hxlt
      have hjeq : jref2 = jrefC := WF_unique_job hwfc hj2 hjC hrin2 hrinC
      rw [hjeq] at hx
      have hgj : p.getJob (a.1.ops r).jobId = some jrefC := WF_getJob hwfc hjC hrinC
      rw [hgj]
      exact le_trans (endTime_le_jobReadyTime a.1 _ _ x hx hxlt) (le_max_right _ _)
    have hres := JobInv_schedOp p a.1 mref r _ haJ haN hunsched hready hst
    exact ⟨hres.1, hres.2, haE.trans (evolves_schedOp a.1 mref r _ hunsched)⟩

theorem priorityRound_jobinv (p : ProblemInstance) (sorter : Sorter)
    (cmp : Operation → Operation → Bool)
    (hperm : ∀ h1 l, List.Perm (sorter cmp h1 l) l) (h : Heap)
    (hwf : WF p h) (hJ : JobInv p h) (hN : NoOrphans p h) :
    JobInv p (priorityRound sorter cmp p h).1 ∧
    NoOrphans p (priorityRound sorter cmp p h).1 ∧
    Evolves h (priorityRound sorter cmp p h).1 :=
  commit_fold_jobinv p h hwf _
    (fun r hr => (hperm h (collectReady p h)).mem_iff.1 hr) (h, false) hJ hN
    (Evolves.refl h)

theorem unsched_after_reset (p : ProblemInstance) (h : Heap) :
    ∀ jref ∈ p.jobs,
      ∀ r ∈ ((resetOperations p (resetMachines p h)).jobs jref).operations,
        ((resetOperations p (resetMachines p h)).ops r).isScheduled = false := by
  intro jref hj r hr
  rw [resetOperations_jobs, resetMachines_jobs] at hr
  rw [resetOperations_ops,
    if_pos ⟨jref, hj, by rw [resetMachines_jobs]; exact hr⟩]
  simp [Operation.isScheduled]

theorem JobInv_after_reset (p : ProblemInstance) (h : Heap) :
    JobInv p (resetOperations p (resetMachines p h)) := by
  intro jref hj a ha _b _hb _hlt hsa _hsb
  have hu := unsched_after_reset p h jref hj a ha
  rw [hu] at hsa
  cases hsa

theorem NoOrphans_after_reset (p : ProblemInstance) (h : Heap) :
    NoOrphans p (resetOperations p (resetMachines p h)) := by
  intro jref hj _a _ha b hb _hlt hsb
  have hu := unsched_after_reset p h jref hj b hb
  rw [hu] at hsb
  cases hsb

theorem WF_after_reset (p : ProblemInstance) (h : Heap) (hwf : WF p h) :
    WF p (resetOperations p (resetMachines p h)) := by
  intro i hi r hr
  rw [resetOperations_jobs, resetMachines_jobs] at hr
  rw [resetOperations_ops]
  by_cases hex : ∃ jref ∈ p.jobs, r ∈ ((resetMachines p h).jobs jref).operations
  · rw [if_pos hex]
    show ((resetMachines p h).ops r).jobId = (i : Int)
    rw [resetMachines_ops p h]
    exact hwf i hi r hr
  · rw [if_neg hex]
    show ((resetMachines p h).ops r).jobId = (i : Int)
    rw [resetMachines_ops p h]
    exact hwf i hi r hr

/-- C1 (amended): for every ProblemInstance in which each operation's
`jobId` names the position of the job that stores it (as the parser
guarantees), every rule and every conforming `std::sort` behaviour, the
schedule pass respects intra-job precedence: within any job, if two
operations with operationId(a) < operationId(b) are both scheduled then
endTime(a) ≤ startTime(b). -/
theorem C1_precedence (sorter : Sorter)
    (hspt : SorterOK cmpSPT sorter) (hlpt : SorterOK cmpLPT sorter)
    (alg : SchedulingAlgorithm) (p : ProblemInstance) (h : Heap)
    (hwf : WF p h) :
    JobInv p (runAlgorithm sorter alg p h) := by
  have hwf0 : WF p (resetOperations p (resetMachines p h)) := WF_after_reset p h hwf
  have hJ0 := JobInv_after_reset p h
  have hN0 := NoOrphans_after_reset p h
  cases alg with
  | FIFO =>
    exact (schedLoop_preserves (fifoRound p)
      (fun h2 => WF p h2 ∧ JobInv p h2 ∧ NoOrphans p h2)
      (fun h2 hP => by
        have hr := fifoRound_jobinv p h2 hP.1 hP.2.1 hP.2.2
        exact ⟨WF_evolves hP.1 hr.2.2, hr.1, hr.2.1⟩)
      1000 _ ⟨hwf0, hJ0, hN0⟩).2.1
  | SPT =>
    exact (schedLoop_preserves (priorityRound sorter cmpSPT p)
      (fun h2 => WF p h2 ∧ JobInv p h2 ∧ NoOrphans p h2)
      (fun h2 hP => by
        have hr := priorityRound_jobinv p sorter cmpSPT
          (fun h1 l => (hspt h1 l).1) h2 hP.1 hP.2.1 hP.2.2
        exact ⟨WF_evolves hP.1 hr.2.2, hr.1, hr.2.1⟩)
      1000 _ ⟨hwf0, hJ0, hN0⟩).2.1
  | LPT =>
    exact (schedLoop_preserves (priorityRound sorter cmpLPT p)
      (fun h2 => WF p h2 ∧ JobInv p h2 ∧ NoOrphans p h2)
      (fun h2 hP => by
        have hr := priorityRound_jobinv p sorter cmpLPT
          (fun h1 l => (hlpt h1 l).1) h2 hP.1 hP.2.1 hP.2.2
        exact ⟨WF_evolves hP.1 hr.2.2, hr.1, hr.2.1⟩)
      1000 _ ⟨hwf0, hJ0, hN0⟩).2.1

/-- C1 counterexample: if an operation is stored in one job but its
`jobId` names another job (within-range, so still "valid" per the data
model), SPT computes its job-ready time from the wrong job and violates
precedence: on `p1c`/`h1c` both operations of job 0 end up scheduled
with endTime(op 0) = 5 > 0 = startTime(op 1). -/
theorem C1_counterexample_jobid_mismatch :
    ¬ (∀ sorter : Sorter, SorterOK cmpSPT sorter → SorterOK cmpLPT sorter →
        ∀ (alg : SchedulingAlgorithm) (p : ProblemInstance) (h : Heap),
          JobInv p (runAlgorithm sorter alg p h)) := by
  intro hcl
  have hv := hcl insertionSorter insertionSorter_ok_SPT insertionSorter_ok_LPT
    SchedulingAlgorithm.SPT p1c h1c 0 (by decide) 0 (by decide) 1 (by decide)
    (by decide) (by decide) (by decide)
  exact absurd hv (by decide)

/-- Witness for C1 on the SPT-vs-LPT scenario (which is well-formed). -/
theorem C1_witness :
    JobInv p8 (runAlgorithm insertionSorter SchedulingAlgorithm.SPT p8 h8) :=
  C1_precedence insertionSorter insertionSorter_ok_SPT insertionSorter_ok_LPT
    SchedulingAlgorithm.SPT p8 h8 (by unfold WF; decide)

end JSSP

namespace JSSP

/-! ### Counting unscheduled operations (C10) -/

/-- Number of unscheduled operations in a job's list. -/
def countUnsched (h : Heap) (jref : Nat) : Nat :=
  (h.jobs jref).operations.countP (fun r => !(h.ops r).isScheduled)

theorem not_sched_back {h2 h3 : Heap} (hE : Evolves h2 h3) (r : Nat)
    (hp : (!(h3.ops r).isScheduled) = true) : (!(h2.ops r).isScheduled) = true := by
  rw [Bool.not_eq_true'] at hp ⊢
  by_cases hs : (h2.ops r).isScheduled = true
  · rw [hE.2.2 r hs] at hp
    rw [hp] at hs
    cases hs
  · simpa using hs

theorem countUnsched_mono {h2 h3 : Heap} (hE : Evolves h2 h3) (jref : Nat) :
    countUnsched h3 jref ≤ countUnsched h2 jref := by
  unfold countUnsched
  rw [hE.1]
  exact List.countP_mono_left (fun r _ hp => not_sched_back hE r hp)

theorem countP_lt {l : List Nat} {pq q : Nat → Bool}
    (hmono : ∀ x ∈ l, q x = true → pq x = true) {x : Nat} (hx : x ∈ l)
    (hpx : pq x = true) (hqx : q x = false) : l.countP q < l.countP pq := by
  induction l with
  | nil => exact absurd hx (List.not_mem_nil x)
  | cons a t ih =>
    rw [List.countP_cons, List.countP_cons]
    rcases List.mem_cons.1 hx with rfl | hxt
    · have hle : t.countP q ≤ t.countP pq :=
        List.countP_mono_left (fun y hy => hmono y (List.mem_cons_of_mem x hy))
      rw [hpx, hqx]
      simp
      omega
    · have hlt := ih (fun y hy => hmono y (List.mem_cons_of_mem a hy)) hxt
      have hite : (if q a then 1 else 0) ≤ (if pq a then 1 else 0) := by
        by_cases hqa : q a = true
        · rw [hmono a (List.mem_cons_self a t) hqa, hqa]
        · simp [hqa]
      omega

theorem exists_min_key : ∀ (l : List Nat), l ≠ [] → ∀ (f : Nat → Int),
    ∃ x ∈ l, ∀ y ∈ l, f x ≤ f y
  | [], hne, _ => absurd rfl hne
  | [a], _, f => ⟨a, by simp, by simp⟩
  | a :: b :: t, _, f => by
    obtain ⟨x, hx, hmin⟩ := exists_min_key (b :: t) (by simp) f
    by_cases hab : f a ≤ f x
    · refine ⟨a, by simp, ?_⟩
      intro y hy
      rcases List.mem_cons.1 hy with rfl | hyt
      · exact le_refl _
      · exact le_trans hab (hmin y hyt)
    · refine ⟨x, List.mem_cons_of_mem a hx, ?_⟩
      intro y hy
      rcases List.mem_cons.1 hy with rfl | hyt
      · exact le_of_not_le hab
      · exact hmin y hyt

/-! ### Definite outcomes of the step functions -/

theorem commitStep_skip (p : ProblemInstance) (acc : Heap × Bool) (r : Nat)
    (hs : (acc.1.ops r).isScheduled = true) : commitStep p acc r = acc := by
  simp only [commitStep, hs, if_true]

theorem commitStep_commits (p : ProblemInstance) (acc : Heap × Bool) (r : Nat)
    (hunsched : (acc.1.ops r).isScheduled = false) {mref : Nat}
    (hm : p.getMachine (acc.1.ops r).machineId = some mref) :
    commitStep p acc r =
      (Machine.scheduleOperation acc.1 mref (some r)
        (max (acc.1.machines mref).availableTime
          (match p.getJob (acc.1.ops r).jobId with
           | none => 0
           | some jref => jobReadyTime acc.1 ((acc.1.jobs jref)).operations
               (acc.1.ops r).operationId)), true) := by
  simp only [commitStep, hunsched, Bool.false_eq_true, if_false, hm]

theorem fifoStep_skip (p : ProblemInstance) (jref : Nat) (acc : Heap × Bool) (r : Nat)
    (hs : (acc.1.ops r).isScheduled = true) : fifoStep p jref acc r = acc := by
  simp only [fifoStep, hs, if_true]

theorem fifoStep_commits (p : ProblemInstance) (jref : Nat) (acc : Heap × Bool) (r : Nat)
    (hunsched : (acc.1.ops r).isScheduled = false) {mref : Nat}
    (hm : p.getMachine (acc.1.ops r).machineId = some mref)
    (hprev : allPrevOpsCompleted acc.1 ((acc.1.jobs jref)).operations
      (acc.1.ops r).operationId = true) :
    fifoStep p jref acc r =
      (Machine.scheduleOperation acc.1 mref (some r)
        (max (acc.1.machines mref).availableTime
          (jobReadyTime acc.1 ((acc.1.jobs jref)).operations
            (acc.1.ops r).operationId)), true) := by
  simp only [fifoStep, hunsched, Bool.false_eq_true, if_false, hm, hprev, if_true]

/-! ### Evolution and flag facts about rounds -/

theorem commitStep_evolves (p : ProblemInstance) (acc : Heap × Bool) (r : Nat) :
    Evolves acc.1 (commitStep p acc r).1 := by
  rcases commitStep_eq p acc r with heq | ⟨mref, hunsched, _, heq⟩
  · rw [heq]; exact Evolves.refl _
  · rw [heq]; exact evolves_schedOp acc.1 mref r _ hunsched

theorem fifoStep_evolves (p : ProblemInstance) (jref : Nat) (acc : Heap × Bool) (r : Nat) :
    Evolves acc.1 (fifoStep p jref acc r).1 := by
  rcases fifoStep_eq p jref acc r with heq | ⟨mref, hunsched, _, _, heq⟩
  · rw [heq]; exact Evolves.refl _
  · rw [heq]; exact evolves_schedOp acc.1 mref r _ hunsched

theorem commit_fold_evolves (p : ProblemInstance) (h2 : Heap) (L : List Nat)
    (acc : Heap × Bool) (hE : Evolves h2 acc.1) :
    Evolves h2 (L.foldl (commitStep p) acc).1 :=
  foldl_preserve (commitStep p) (fun a => Evolves h2 a.1) L acc
    (fun a r _ ha => ha.trans (commitStep_evolves p a r)) hE

theorem fifo_fold_evolves (p : ProblemInstance) (h2 : Heap) (jref : Nat) (L : List Nat)
    (acc : Heap × Bool) (hE : Evolves h2 acc.1) :
    Evolves h2 (L.foldl (fifoStep p jref) acc).1 :=
  foldl_preserve (fifoStep p jref) (fun a => Evolves h2 a.1) L acc
    (fun a r _ ha => ha.trans (fifoStep_evolves p jref a r)) hE

theorem priorityRound_evolves (p : ProblemInstance) (sorter : Sorter)
    (cmp : Operation → Operation → Bool) (h2 : Heap) :
    Evolves h2 (priorityRound sorter cmp p h2).1 :=
  commit_fold_evolves p h2 _ (h2, false) (Evolves.refl h2)

theorem fifoRound_evolves (p : ProblemInstance) (h2 : Heap) :
    Evolves h2 (fifoRound p h2).1 :=
  foldl_preserve _ (fun a => Evolves h2 a.1) p.jobs (h2, false)
    (fun a jref _ ha => fifo_fold_evolves p h2 jref _ a ha) (Evolves.refl h2)

theorem commitStep_flag (p : ProblemInstance) (h2 : Heap) (a : Heap × Bool) (r : Nat)
    (hP : a = (h2, false) ∨ a.2 = true) :
    commitStep p a r = (h2, false) ∨ (commitStep p a r).2 = true := by
  rcases commitStep_eq p a r with heq | ⟨_, _, _, heq⟩
  · rw [heq]; exact hP
  · rw [heq]; exact Or.inr rfl

theorem fifoStep_flag (p : ProblemInstance) (jref : Nat) (h2 : Heap) (a : Heap × Bool)
    (r : Nat) (hP : a = (h2, false) ∨ a.2 = true) :
    fifoStep p jref a r = (h2, false) ∨ (fifoStep p jref a r).2 = true := by
  rcases fifoStep_eq p jref a r with heq | ⟨_, _, _, _, heq⟩
  · rw [heq]; exact hP
  · rw [heq]; exact Or.inr rfl

theorem priorityRound_flag (p : ProblemInstance) (sorter : Sorter)
    (cmp : Operation → Operation → Bool) (h2 : Heap) :
    priorityRound sorter cmp p h2 = (h2, false) ∨ (priorityRound sorter cmp p h2).2 = true :=
  foldl_preserve (commitStep p) (fun a => a = (h2, false) ∨ a.2 = true) _ (h2, false)
    (fun a r _ hP => commitStep_flag p h2 a r hP) (Or.inl rfl)

theorem fifoRound_flag (p : ProblemInstance) (h2 : Heap) :
    fifoRound p h2 = (h2, false) ∨ (fifoRound p h2).2 = true :=
  foldl_preserve _ (fun a => a = (h2, false) ∨ a.2 = true) p.jobs (h2, false)
    (fun a jref _ hP =>
      foldl_preserve (fifoStep p jref) (fun a2 => a2 = (h2, false) ∨ a2.2 = true)
        _ a (fun a2 r _ hP2 => fifoStep_flag p jref h2 a2 r hP2) hP)
    (Or.inl rfl)

end JSSP

namespace JSSP

/-! ### Per-round progress (C10) -/

theorem priorityRound_progress (p : ProblemInstance) (sorter : Sorter)
    (cmp : Operation → Operation → Bool)
    (hperm : ∀ h1 l, List.Perm (sorter cmp h1 l) l) (h2 : Heap)
    (hvm : ∀ jref ∈ p.jobs, ∀ r ∈ (h2.jobs jref).operations,
      (p.getMachine (h2.ops r).machineId).isSome ∧ 0 < (h2.ops r).processingTime)
    (jref : Nat) (hj : jref ∈ p.jobs) (hcnt : 0 < countUnsched h2 jref) :
    countUnsched (priorityRound sorter cmp p h2).1 jref < countUnsched h2 jref := by
  unfold countUnsched at hcnt
  obtain ⟨r0, hr0mem, hr0p⟩ := List.countP_pos.1 hcnt
  have hne : (h2.jobs jref).operations.filter (fun r => !(h2.ops r).isScheduled) ≠ [] :=
    List.ne_nil_of_mem (List.mem_filter.2 ⟨hr0mem, hr0p⟩)
  obtain ⟨rm, hrmF, hrmMin⟩ := exists_min_key _ hne (fun r => (h2.ops r).operationId)
  have hrmMem : rm ∈ (h2.jobs jref).operations := (List.mem_filter.1 hrmF).1
  have hrmUn : (h2.ops rm).isScheduled = false := by
    have h3 := (List.mem_filter.1 hrmF).2
    rwa [Bool.not_eq_true'] at h3
  have hready : ∀ y ∈ (h2.jobs jref).operations,
      (h2.ops y).operationId < (h2.ops rm).operationId →
      (h2.ops y).isScheduled = true := by
    intro y hy hylt
    by_contra hns
    have hyF : y ∈ (h2.jobs jref).operations.filter (fun r => !(h2.ops r).isScheduled) :=
      List.mem_filter.2 ⟨hy, by rw [Bool.not_eq_true']; simpa using hns⟩
    exact absurd hylt (not_lt.2 (hrmMin y hyF))
  have hprev : allPrevOpsCompleted h2 ((h2.jobs jref)).operations
      (h2.ops rm).operationId = true :=
    (allPrevOpsCompleted_iff h2 _ _).2 hready
  have hcoll : rm ∈ collectReady p h2 :=
    mem_collectReady.2 ⟨jref, hj, hrmMem, hrmUn, hprev⟩
  have hsorted : rm ∈ sorter cmp h2 (collectReady p h2) :=
    (hperm h2 _).mem_iff.2 hcoll
  have hQ : (((sorter cmp h2 (collectReady p h2)).foldl (commitStep p)
      (h2, false)).1.ops rm).isScheduled = true := by
    refine foldl_mem_achieves (commitStep p) (fun a => Evolves h2 a.1)
      (fun a => (a.1.ops rm).isScheduled = true) rm _ (h2, false)
      (fun y b _ hy => hy.trans (commitStep_evolves p y b))
      (fun y b _ _ hQy => (commitStep_evolves p y b).sched_mono rm hQy)
      (fun y hyP => ?_) hsorted (Evolves.refl h2)
    by_cases hs : (y.1.ops rm).isScheduled = true
    · rw [commitStep_skip p y rm hs]
      exact hs
    · have hs2 : (y.1.ops rm).isScheduled = false := by simpa using hs
      have hmid : (y.1.ops rm).machineId = (h2.ops rm).machineId := (hyP.2.1 rm).2.1
      obtain ⟨mref, hm2⟩ := Option.isSome_iff_exists.1 (hvm jref hj rm hrmMem).1
      have hm : p.getMachine (y.1.ops rm).machineId = some mref := by
        rw [hmid]; exact hm2
      rw [commitStep_commits p y rm hs2 hm]
      dsimp only
      rw [schedOp_ops y.1 mref rm _ rm, if_pos rfl]
      have hpt : 0 < (y.1.ops rm).processingTime := by
        rw [(hyP.2.1 rm).2.2.1]
        exact (hvm jref hj rm hrmMem).2
      simp only [Operation.setScheduled, Operation.isScheduled, decide_eq_true_eq]
      omega
  have hEv := priorityRound_evolves p sorter cmp h2
  have hQ2 : (((priorityRound sorter cmp p h2).1).ops rm).isScheduled = true := hQ
  unfold countUnsched
  rw [hEv.1]
  refine countP_lt (fun y _ hy => not_sched_back hEv y hy) hrmMem ?_ ?_
  · rw [Bool.not_eq_true']
    exact hrmUn
  · rw [hQ2]
    rfl

end JSSP

namespace JSSP

theorem fifoRound_progress (p : ProblemInstance) (h2 : Heap)
    (hvm : ∀ jref ∈ p.jobs, ∀ r ∈ (h2.jobs jref).operations,
      (p.getMachine (h2.ops r).machineId).isSome ∧ 0 < (h2.ops r).processingTime)
    (jref : Nat) (hj : jref ∈ p.jobs) (hcnt : 0 < countUnsched h2 jref) :
    countUnsched (fifoRound p h2).1 jref < countUnsched h2 jref := by
  unfold countUnsched at hcnt
  obtain ⟨r0, hr0mem, hr0p⟩ := List.countP_pos.1 hcnt
  have hne : (h2.jobs jref).operations.filter (fun r => !(h2.ops r).isScheduled) ≠ [] :=
    List.ne_nil_of_mem (List.mem_filter.2 ⟨hr0mem, hr0p⟩)
  obtain ⟨rm, hrmF, hrmMin⟩ := exists_min_key _ hne (fun r => (h2.ops r).operationId)
  have hrmMem : rm ∈ (h2.jobs jref).operations := (List.mem_filter.1 hrmF).1
  have hrmUn : (h2.ops rm).isScheduled = false := by
    have h3 := (List.mem_filter.1 hrmF).2
    rwa [Bool.not_eq_true'] at h3
  have hready : ∀ y ∈ (h2.jobs jref).operations,
      (h2.ops y).operationId < (h2.ops rm).operationId →
      (h2.ops y).isScheduled = true := by
    intro y hy hylt
    by_contra hns
    have hyF : y ∈ (h2.jobs jref).operations.filter (fun r => !(h2.ops r).isScheduled) :=
      List.mem_filter.2 ⟨hy, by rw [Bool.not_eq_true']; simpa using hns⟩
    exact absurd hylt (not_lt.2 (hrmMin y hyF))
  have hQ : ((p.jobs.foldl
      (fun acc j2 => ((acc.1.jobs j2).operations).foldl (fifoStep p j2) acc)
      (h2, false)).1.ops rm).isScheduled = true := by
    refine foldl_mem_achieves _ (fun a => Evolves h2 a.1)
      (fun a => (a.1.ops rm).isScheduled = true) jref p.jobs (h2, false)
      (fun y j2 _ hy => fifo_fold_evolves p h2 j2 _ y hy)
      (fun y j2 _ _ hQy =>
        (fifo_fold_evolves p y.1 j2 _ y (Evolves.refl y.1)).sched_mono rm hQy)
      (fun y hyP => ?_) hj (Evolves.refl h2)
    have hlist : y.1.jobs jref = h2.jobs jref := by rw [hyP.1]
    rw [hlist]
    refine foldl_mem_achieves (fifoStep p jref) (fun a => Evolves h2 a.1)
      (fun a => (a.1.ops rm).isScheduled = true) rm _ y
      (fun z b _ hz => hz.trans (fifoStep_evolves p jref z b))
      (fun z b _ _ hQz => (fifoStep_evolves p jref z b).sched_mono rm hQz)
      (fun z hzP => ?_) hrmMem hyP
    by_cases hs : (z.1.ops rm).isScheduled = true
    · rw [fifoStep_skip p jref z rm hs]
      exact hs
    · have hs2 : (z.1.ops rm).isScheduled = false := by simpa using hs
      have hmid : (z.1.ops rm).machineId = (h2.ops rm).machineId := (hzP.2.1 rm).2.1
      obtain ⟨mref, hm2⟩ := Option.isSome_iff_exists.1 (hvm jref hj rm hrmMem).1
      have hm : p.getMachine (z.1.ops rm).machineId = some mref := by
        rw [hmid]; exact hm2
      have hprevz : allPrevOpsCompleted z.1 ((z.1.jobs jref)).operations
          (z.1.ops rm).operationId = true := by
        refine (allPrevOpsCompleted_iff z.1 _ _).2 ?_
        intro x hx hxlt
        have hx2 : x ∈ (h2.jobs jref).operations := by rw [← hzP.1]; exact hx
        have hid_x : (z.1.ops x).operationId = (h2.ops x).operationId := (hzP.2.1 x).2.2.2
        have hid_r : (z.1.ops rm).operationId = (h2.ops rm).operationId := (hzP.2.1 rm).2.2.2
        rw [hid_x, hid_r] at hxlt
        exact hzP.sched_mono x (hready x hx2 hxlt)
      rw [fifoStep_commits p jref z rm hs2 hm hprevz]
      dsimp only
      rw [schedOp_ops z.1 mref rm _ rm, if_pos rfl]
      have hpt : 0 < (z.1.ops rm).processingTime := by
        rw [(hzP.2.1 rm).2.2.1]
        exact (hvm jref hj rm hrmMem).2
      simp only [Operation.setScheduled, Operation.isScheduled, decide_eq_true_eq]
      omega
  have hEv := fifoRound_evolves p h2
  have hQ2 : (((fifoRound p h2).1).ops rm).isScheduled = true := hQ
  unfold countUnsched
  rw [hEv.1]
  refine countP_lt (fun y _ hy => not_sched_back hEv y hy) hrmMem ?_ ?_
  · rw [Bool.not_eq_true']
    exact hrmUn
  · rw [hQ2]
    rfl

end JSSP

namespace JSSP

/-! ### Loop completion (C10) -/

theorem schedLoop_all_scheduled (p : ProblemInstance) (R : Heap → Heap × Bool)
    (hInit : Heap)
    (hEv : ∀ h2, Evolves h2 (R h2).1)
    (hflagOr : ∀ h2, R h2 = (h2, false) ∨ (R h2).2 = true)
    (hprog : ∀ h2, Evolves hInit h2 → ∀ jref ∈ p.jobs,
        0 < countUnsched h2 jref → countUnsched (R h2).1 jref < countUnsched h2 jref) :
    ∀ (fuel : Nat) (h2 : Heap), Evolves hInit h2 →
      (∀ jref ∈ p.jobs, countUnsched h2 jref ≤ fuel) →
      ∀ jref ∈ p.jobs, countUnsched (schedLoop R fuel h2) jref = 0
  | 0, h2, _, hcnt, jref, hj => Nat.le_zero.1 (hcnt jref hj)
  | fuel + 1, h2, hE, hcnt, jref, hj => by
    by_cases hall : ∀ jref2 ∈ p.jobs, countUnsched h2 jref2 = 0
    · have hpres := schedLoop_preserves R
        (fun hh => Evolves hInit hh ∧ ∀ jref2 ∈ p.jobs, countUnsched hh jref2 = 0)
        (fun hh hP => ⟨hP.1.trans (hEv hh), fun jref2 hj2 =>
          Nat.le_zero.1 (le_trans (countUnsched_mono (hEv hh) jref2)
            (le_of_eq (hP.2 jref2 hj2)))⟩)
        (fuel + 1) h2 ⟨hE, hall⟩
      exact hpres.2 jref hj
    · push_neg at hall
      obtain ⟨jref0, hj0, hne0⟩ := hall
      have hpos0 : 0 < countUnsched h2 jref0 := Nat.pos_of_ne_zero hne0
      have hlt0 := hprog h2 hE jref0 hj0 hpos0
      have hflag : (R h2).2 = true := by
        rcases hflagOr h2 with heq | hfl
        · rw [heq] at hlt0
          exact absurd hlt0 (lt_irrefl _)
        · exact hfl
      rw [schedLoop_succ, if_pos hflag]
      refine schedLoop_all_scheduled p R hInit hEv hflagOr hprog fuel (R h2).1
        (hE.trans (hEv h2)) ?_ jref hj
      intro jref2 hj2
      by_cases hz : countUnsched h2 jref2 = 0
      · have := countUnsched_mono (hEv h2) jref2
        omega
      · have hpos2 : 0 < countUnsched h2 jref2 := Nat.pos_of_ne_zero hz
        have hlt2 := hprog h2 hE jref2 hj2 hpos2
        have hcap := hcnt jref2 hj2
        omega

/-- C10: if every operation's machineId refers to an existing machine,
every processingTime is strictly positive, operationIds are distinct
within each job, and every job has at most 999 operations, then every
rule (under any conforming `std::sort` behaviour) terminates with every
operation of every job scheduled — the 1000-round safety limit is never
the binding constraint for such inputs. -/
theorem C10_complete_schedule (sorter : Sorter)
    (hspt : SorterOK cmpSPT sorter) (hlpt : SorterOK cmpLPT sorter)
    (alg : SchedulingAlgorithm) (p : ProblemInstance) (h : Heap)
    (hvm : ∀ jref ∈ p.jobs, ∀ r ∈ (h.jobs jref).operations,
      (p.getMachine (h.ops r).machineId).isSome)
    (hpos : PosTimes p h)
    (hnodup : ∀ jref ∈ p.jobs,
      (((h.jobs jref).operations).map (fun r => (h.ops r).operationId)).Nodup)
    (hlen : ∀ jref ∈ p.jobs, ((h.jobs jref).operations).length ≤ 999) :
    ∀ jref ∈ p.jobs,
      ∀ r ∈ ((runAlgorithm sorter alg p h).jobs jref).operations,
        ((runAlgorithm sorter alg p h).ops r).isScheduled = true := by
  have hvm0 : ∀ jref ∈ p.jobs,
      ∀ r ∈ ((resetOperations p (resetMachines p h)).jobs jref).operations,
        (p.getMachine (((resetOperations p (resetMachines p h)).ops r)).machineId).isSome
          ∧ 0 < (((resetOperations p (resetMachines p h)).ops r)).processingTime := by
    intro jref hj r hr
    rw [resetOperations_jobs, resetMachines_jobs] at hr
    have hid : ((resetOperations p (resetMachines p h)).ops r).machineId
          = (h.ops r).machineId ∧
        ((resetOperations p (resetMachines p h)).ops r).processingTime
          = (h.ops r).processingTime := by
      rw [resetOperations_ops]
      by_cases hex : ∃ jref2 ∈ p.jobs, r ∈ ((resetMachines p h).jobs jref2).operations
      · rw [if_pos hex]
        constructor
        · show ((resetMachines p h).ops r).machineId = (h.ops r).machineId
          rw [resetMachines_ops p h]
        · show ((resetMachines p h).ops r).processingTime = (h.ops r).processingTime
          rw [resetMachines_ops p h]
      · rw [if_neg hex]
        rw [resetMachines_ops p h]
        exact ⟨rfl, rfl⟩
    rw [hid.1, hid.2]
    exact ⟨hvm jref hj r hr, hpos jref hj r hr⟩
  have hvmE : ∀ h2, Evolves (resetOperations p (resetMachines p h)) h2 →
      ∀ jref ∈ p.jobs, ∀ r ∈ (h2.jobs jref).operations,
        (p.getMachine (h2.ops r).machineId).isSome ∧ 0 < (h2.ops r).processingTime := by
    intro h2 hE jref hj r hr
    rw [hE.1] at hr
    rw [(hE.2.1 r).2.1, (hE.2.1 r).2.2.1]
    exact hvm0 jref hj r hr
  have hcnt0 : ∀ jref ∈ p.jobs,
      countUnsched (resetOperations p (resetMachines p h)) jref ≤ 1000 := by
    intro jref hj
    refine le_trans (List.countP_le_length _) ?_
    rw [resetOperations_jobs, resetMachines_jobs]
    exact le_trans (hlen jref hj) (by omega)
  cases alg with
  | FIFO =>
    have hdone := schedLoop_all_scheduled p (fifoRound p)
      (resetOperations p (resetMachines p h))
      (fun h2 => fifoRound_evolves p h2)
      (fun h2 => fifoRound_flag p h2)
      (fun h2 hE jref hj hpos2 =>
        fifoRound_progress p h2 (hvmE h2 hE) jref hj hpos2)
      1000 _ (Evolves.refl _) hcnt0
    intro jref hj r hr
    have hz := hdone jref hj
    unfold countUnsched at hz
    rw [List.countP_eq_zero] at hz
    have hnot := hz r hr
    simpa using hnot
  | SPT =>
    have hdone := schedLoop_all_scheduled p (priorityRound sorter cmpSPT p)
      (resetOperations p (resetMachines p h))
      (fun h2 => priorityRound_evolves p sorter cmpSPT h2)
      (fun h2 => priorityRound_flag p sorter cmpSPT h2)
      (fun h2 hE jref hj hpos2 =>
        priorityRound_progress p sorter cmpSPT (fun h1 l => (hspt h1 l).1)
          h2 (hvmE h2 hE) jref hj hpos2)
      1000 _ (Evolves.refl _) hcnt0
    intro jref hj r hr
    have hz := hdone jref hj
    unfold countUnsched at hz
    rw [List.countP_eq_zero] at hz
    have hnot := hz r hr
    simpa using hnot
  | LPT =>
    have hdone := schedLoop_all_scheduled p (priorityRound sorter cmpLPT p)
      (resetOperations p (resetMachines p h))
      (fun h2 => priorityRound_evolves p sorter cmpLPT h2)
      (fun h2 => priorityRound_flag p sorter cmpLPT h2)
      (fun h2 hE jref hj hpos2 =>
        priorityRound_progress p sorter cmpLPT (fun h1 l => (hlpt h1 l).1)
          h2 (hvmE h2 hE) jref hj hpos2)
      1000 _ (Evolves.refl _) hcnt0
    intro jref hj r hr
    have hz := hdone jref hj
    unfold countUnsched at hz
    rw [List.countP_eq_zero] at hz
    have hnot := hz r hr
    simpa using hnot

/-- Witness for C10 on the SPT-vs-LPT scenario: both operations end up
scheduled under LPT. -/
theorem C10_witness :
    ((runAlgorithm insertionSorter SchedulingAlgorithm.LPT p8 h8).ops
      0).isScheduled = true ∧
    ((runAlgorithm insertionSorter SchedulingAlgorithm.LPT p8 h8).ops
      1).isScheduled = true :=
  ⟨C10_complete_schedule insertionSorter insertionSorter_ok_SPT insertionSorter_ok_LPT
      SchedulingAlgorithm.LPT p8 h8 (by decide)
      (by unfold PosTimes; decide) (by decide) (by decide) 0 (by decide) 0 (by decide),
   C10_complete_schedule insertionSorter insertionSorter_ok_SPT insertionSorter_ok_LPT
      SchedulingAlgorithm.LPT p8 h8 (by decide)
      (by unfold PosTimes; decide) (by decide) (by decide) 1 (by decide) 1 (by decide)⟩

end JSSP
